import Mathlib

/-!
Shallow embedding of `src/train.py` from the Open-Domain-Question-Answering
repository: the training loop (`train`), the evaluation loop (`inference`)
and the driver (`run`), together with proofs of the specified properties.

External collaborators (the pretrained model object from `t5model`, the
`QAData` dataset objects, the optimizer and scheduler) are abstracted as
data: the model's forward loss is an arbitrary function of the global step,
generation an arbitrary function of the parameter version and the batch,
and the dev set's `evaluate` an arbitrary per-example score function.  The
mutable parameters of the model are abstracted by a version counter that is
incremented exactly at `optimizer.step()`.  Python floats that may be NaN
are modelled by `EVal` (a rational number or NaN); Python's `<` on floats
returns `False` whenever NaN is involved.  Every side effect of the loop
(forward, backward, clipping, optimizer/scheduler stepping, zeroing,
evaluating, logging, checkpoint saving) is recorded in an event trace.
Python's `UnboundLocalError` is modelled by an `Except` error carrying the
state at the moment the unbound read happens.
-/

namespace ODQA

/-- A Python float that may be NaN: losses and evaluation scores. -/
inductive EVal where
  | num (q : ℚ)
  | nan
deriving DecidableEq

/-- Python `<` on possibly-NaN floats: any comparison with NaN is `False`.
`best_accuracy < curr_em` in src/train.py line 88. -/
def EVal.elt : EVal → EVal → Bool
  | EVal.num a, EVal.num b => decide (a < b)
  | _, _ => false

/-- `torch.isnan` (src/train.py line 65). -/
def EVal.isnan : EVal → Bool
  | EVal.nan => true
  | _ => false

/-- `≤` on numeric values, used to state monotonicity of the best score. -/
def EVal.le : EVal → EVal → Prop
  | EVal.num a, EVal.num b => a ≤ b
  | _, _ => False

def EVal.toQ : EVal → ℚ
  | EVal.num a => a
  | EVal.nan => 0

/-- `np.mean` of a list of numbers: NaN on the empty list. -/
def npMean (l : List ℚ) : EVal :=
  if l.isEmpty then EVal.nan else EVal.num (l.sum / l.length)

/-- `np.mean` of a list of possibly-NaN values (the running loss buffer). -/
def npMeanE (l : List EVal) : EVal :=
  if l.isEmpty then EVal.nan
  else if l.any EVal.isnan then EVal.nan
  else EVal.num ((l.map EVal.toQ).sum / l.length)

/-- A tensor: abstract payload plus the device it lives on. -/
structure Tensor where
  data : Int
  onCpu : Bool
deriving DecidableEq

/-- `tensor.cpu()`: move the tensor to the host (src/train.py line 89). -/
def Tensor.cpu (t : Tensor) : Tensor := { t with onCpu := true }

/-- The keyword arguments passed to `model.generate` by `inference`
(src/train.py lines 110-114). -/
structure GenParams where
  num_beams : Nat
  max_length : Nat
  early_stopping : Bool
deriving DecidableEq

/-- The dev-set collaborator (`QAData`): abstract batches, the generation
arguments `dev_data.args.num_beams` / `dev_data.args.max_output_length`,
`decode_batch`, and the per-example `evaluate` scores. -/
structure DevData where
  batches : List Nat
  num_beams : Nat
  max_output_length : Nat
  decode_batch : Nat → Nat
  evaluate : List Nat → List ℚ

/-- The model collaborator (`t5model`).  Its mutable parameters are
abstracted by a version counter incremented at every `optimizer.step()`;
the forward loss is an arbitrary function of the global step, generation an
arbitrary function of version and batch, and the state dict an arbitrary
function of the version. -/
structure Model where
  lossOf : Nat → EVal
  genOut : Nat → Nat → GenParams → Nat
  stateDictAt : Nat → List (String × Tensor)
  named_parameters : List (String × Tensor)

/-- The result of one `inference` call (src/train.py lines 105-119),
recording the `generate` calls it made, the collected predictions, whether
`dev_data.save_predictions` ran, and the returned mean score. -/
structure InfResult where
  genCalls : List (Nat × GenParams)
  predictions : List Nat
  savedPreds : Option (List Nat)
  score : EVal
deriving DecidableEq

/-- `inference(model, dev_data, save_predictions=True)`, src/train.py lines
105-119: beam-search generation over every dev batch with
`num_beams=dev_data.args.num_beams`,
`max_length=dev_data.args.max_output_length`, `early_stopping=True`, then
optionally `dev_data.save_predictions(predictions)`, returning
`np.mean(dev_data.evaluate(predictions))`. -/
def inference (m : Model) (version : Nat) (dev : DevData)
    (save_predictions : Bool := true) : InfResult :=
  let gp : GenParams :=
    { num_beams := dev.num_beams, max_length := dev.max_output_length,
      early_stopping := true }
  let predictions := dev.batches.map (fun b => dev.decode_batch (m.genOut version b gp))
  { genCalls := dev.batches.map (fun b => (b, gp)),
    predictions := predictions,
    savedPreds := if save_predictions then some predictions else none,
    score := npMean (dev.evaluate predictions) }

/-- The configuration attributes of `args` consumed by `run` and `train`. -/
structure Args where
  num_train_epochs : Nat
  gradient_accumulation_steps : Nat
  eval_period : Nat
  wait_step : Nat
  max_grad_norm : ℚ
  weight_decay : ℚ
  output_dir : String
  do_train : Bool
  do_predict : Bool

/-- `os.path.join`. -/
def osPathJoin (a b : String) : String := a ++ "/" ++ b

/-- One recorded side effect of the training loop.  Each event carries the
global step at which it happened; `evalE` carries the model version that was
evaluated and the full `inference` result; `logTrain` carries the loss
buffer that was averaged for the log line; `saveModel` carries the target
path, the saved dict and the old and new best scores. -/
inductive Event where
  | forwardE (step : Nat) (loss : EVal)
  | nanStop (step : Nat) (loss : EVal)
  | appendLoss (step : Nat) (loss : EVal)
  | backward (step : Nat)
  | clipGrad (step : Nat) (maxNorm : ℚ)
  | optStep (step : Nat)
  | schedStep (step : Nat)
  | zeroGrad (step : Nat)
  | evalE (step : Nat) (version : Nat) (inf : InfResult)
  | logTrain (step : Nat) (buffer : List EVal) (meanLoss : EVal) (score : EVal) (epoch : Nat)
  | saveModel (step : Nat) (version : Nat) (path : String)
      (dict : List (String × Tensor)) (prevBest : EVal) (score : EVal)
deriving DecidableEq

/-- The global step an event happened at. -/
def eventStep : Event → Nat
  | Event.forwardE s _ => s
  | Event.nanStop s _ => s
  | Event.appendLoss s _ => s
  | Event.backward s => s
  | Event.clipGrad s _ => s
  | Event.optStep s => s
  | Event.schedStep s => s
  | Event.zeroGrad s => s
  | Event.evalE s _ _ => s
  | Event.logTrain s _ _ _ _ => s
  | Event.saveModel s _ _ _ _ _ => s

/-- The mutable bookkeeping of `train` (src/train.py lines 50-53) plus the
abstract parameter version and the event trace. -/
structure TrainState where
  global_step : Nat
  train_losses : List EVal
  best_accuracy : EVal
  wait_step : Option Nat
  stop_training : Bool
  version : Nat
  trace : List Event
deriving DecidableEq

/-- A Python exception escaping `train`: reading a never-assigned local
variable.  The state at the moment of the raise is carried for analysis. -/
inductive Err where
  | unboundLocal (name : String) (st : TrainState)

/-- The body of the inner batch loop of `train` (src/train.py lines 57-100).
Returns the new state and whether the loop `break`s; raises when the
non-improvement branch reads `wait_step` before its first assignment.
The two `% 0` situations (Python would raise `ZeroDivisionError` if
`gradient_accumulation_steps` or `eval_period` were 0) are not modelled;
the theorems about those conditions assume the divisor is positive. -/
def runBatch (args : Args) (m : Model) (dev : DevData) (epoch : Nat)
    (st : TrainState) : Except Err (TrainState × Bool) :=
  let step := st.global_step + 1
  let loss := m.lossOf step
  let st1 : TrainState :=
    { st with global_step := step,
              trace := st.trace ++ [Event.forwardE step loss] }
  if loss.isnan then
    Except.ok ({ st1 with stop_training := true,
                          trace := st1.trace ++ [Event.nanStop step loss] }, true)
  else
    let st2 : TrainState :=
      { st1 with train_losses := st1.train_losses ++ [loss],
                 trace := st1.trace ++ [Event.appendLoss step loss, Event.backward step] }
    let st3 : TrainState :=
      if step % args.gradient_accumulation_steps = 0 then
        { st2 with version := st2.version + 1,
                   trace := st2.trace ++ [Event.clipGrad step args.max_grad_norm,
                                          Event.optStep step, Event.schedStep step,
                                          Event.zeroGrad step] }
      else st2
    if step % args.eval_period = 0 then
      let inf := inference m st3.version dev
      let curr_em := inf.score
      let tr4 := st3.trace ++
        [Event.evalE step st3.version inf,
         Event.logTrain step st3.train_losses (npMeanE st3.train_losses) curr_em epoch]
      let st4 : TrainState := { st3 with trace := tr4, train_losses := [] }
      if st4.best_accuracy.elt curr_em then
        let dict := (m.stateDictAt st4.version).map (fun kv => (kv.1, kv.2.cpu))
        let tr5 := st4.trace ++ [Event.saveModel step st4.version
          (osPathJoin args.output_dir "best-model.pt") dict st4.best_accuracy curr_em]
        Except.ok ({ st4 with trace := tr5, best_accuracy := curr_em,
                              wait_step := some 0, stop_training := false }, false)
      else
        match st4.wait_step with
        | none => Except.error (Err.unboundLocal "wait_step" st4)
        | some w =>
          if args.wait_step ≤ w + 1 then
            Except.ok ({ st4 with wait_step := some (w + 1), stop_training := true }, true)
          else
            Except.ok ({ st4 with wait_step := some (w + 1) }, false)
    else
      Except.ok (st3, false)

/-- The inner loop of `train` over the `trainN` batches of one epoch
(src/train.py line 57), respecting `break`. -/
def runBatches (args : Args) (m : Model) (dev : DevData) (epoch : Nat) :
    Nat → TrainState → Except Err TrainState
  | 0, st => Except.ok st
  | Nat.succ n, st =>
    match runBatch args m dev epoch st with
    | Except.error e => Except.error e
    | Except.ok (st', brk) =>
      if brk then Except.ok st' else runBatches args m dev epoch n st'

/-- The outer epoch loop of `train` (src/train.py lines 56, 102-103). -/
def runEpochs (args : Args) (m : Model) (dev : DevData) (trainN : Nat) :
    Nat → Nat → TrainState → Except Err TrainState
  | _, 0, st => Except.ok st
  | epoch, Nat.succ rem, st =>
    match runBatches args m dev epoch trainN st with
    | Except.error e => Except.error e
    | Except.ok st' =>
      if st'.stop_training then Except.ok st'
      else runEpochs args m dev trainN (epoch + 1) rem st'

/-- The initial bookkeeping of `train` (src/train.py lines 50-53). -/
def initState : TrainState :=
  { global_step := 0, train_losses := [], best_accuracy := EVal.num (-1),
    wait_step := none, stop_training := false, version := 0, trace := [] }

/-- `train(args, logger, model, train_data, dev_data, optimizer, scheduler)`,
src/train.py lines 47-103, with `trainN` batches per epoch. -/
def train (args : Args) (m : Model) (trainN : Nat) (dev : DevData) :
    Except Err TrainState :=
  runEpochs args m dev trainN 0 args.num_train_epochs initState

/-- One AdamW parameter group (src/train.py lines 29-32). -/
structure ParamGroup where
  params : List Tensor
  weight_decay : ℚ
deriving DecidableEq

/-- `no_decay = ['bias', 'LayerNorm.weight']` (src/train.py line 28). -/
def no_decay : List String := ["bias", "LayerNorm.weight"]

/-- Python's `nd in n` substring test on the parameter name. -/
def noDecayName (n : String) : Bool :=
  no_decay.any (fun nd => decide (nd.toList <:+: n.toList))

/-- `optimizer_grouped_parameters` (src/train.py lines 29-32): the decayed
group then the decay-exempt group. -/
def optimizer_grouped_parameters (named : List (String × Tensor)) (wd : ℚ) :
    List ParamGroup :=
  [{ params := (named.filter (fun np => !noDecayName np.1)).map Prod.snd,
     weight_decay := wd },
   { params := (named.filter (fun np => noDecayName np.1)).map Prod.snd,
     weight_decay := 0 }]

/-- What `run` produced: the optimizer groups (when training), the final
training state, and in `do_predict` mode the logged checkpoint path, the
version of the in-memory parameters handed to `inference`, and the
`inference` result. -/
structure RunResult where
  groups : Option (List ParamGroup)
  trainSt : Option TrainState
  predictLog : Option String
  predictVersion : Option Nat
  predictInf : Option InfResult

/-- `run(args, logger)`, src/train.py lines 11-45.  The checkpoint path is
computed and logged in `do_predict` mode but — the loader being an
unimplemented TODO (line 42) — no parameters are read back: `inference`
receives whatever the in-memory model holds (version 0, or the final
training version when `do_train` ran). -/
def run (args : Args) (m : Model) (trainN : Nat) (dev : DevData) :
    Except Err RunResult :=
  let groups := if args.do_train then
      some (optimizer_grouped_parameters m.named_parameters args.weight_decay)
    else none
  let trained : Except Err (Option TrainState) :=
    if args.do_train then Except.map some (train args m trainN dev)
    else Except.ok none
  match trained with
  | Except.error e => Except.error e
  | Except.ok st? =>
    let version := match st? with
      | some st => st.version
      | none => 0
    if args.do_predict then
      let checkpoint := osPathJoin args.output_dir "best-model.pt"
      let inf := inference m version dev true
      Except.ok { groups := groups, trainSt := st?,
                  predictLog := some ("Loading checkpoint from " ++ checkpoint),
                  predictVersion := some version, predictInf := some inf }
    else
      Except.ok { groups := groups, trainSt := st?, predictLog := none,
                  predictVersion := none, predictInf := none }

/-- Total extraction of the state from a `train` result (the error carries
the state at the raise). -/
def resState : Except Err TrainState → TrainState
  | Except.ok st => st
  | Except.error (Err.unboundLocal _ st) => st

/-- Total extraction from a `run` result. -/
def runRes : Except Err RunResult → RunResult
  | Except.ok r => r
  | Except.error _ =>
    { groups := none, trainSt := none, predictLog := none,
      predictVersion := none, predictInf := none }

/-! ### Trace projections -/

/-- Replay step for the running loss buffer: `appendLoss` appends, a
`logTrain` line resets the buffer to `[]`. -/
def bufStep (acc : List EVal) : Event → List EVal
  | Event.appendLoss _ l => acc ++ [l]
  | Event.logTrain _ _ _ _ _ => []
  | _ => acc

def lossBufA (acc : List EVal) (t : List Event) : List EVal :=
  t.foldl bufStep acc

/-- The running loss buffer a trace leaves behind. -/
def lossBuf (t : List Event) : List EVal := lossBufA [] t

def evStep (acc : List (Nat × EVal)) : Event → List (Nat × EVal)
  | Event.evalE s _ inf => acc ++ [(s, inf.score)]
  | _ => acc

/-- The periodic evaluations of a trace: step and score, in order. -/
def evalsOf (t : List Event) : List (Nat × EVal) := t.foldl evStep []

/-- The evaluation scores of a trace, in order. -/
def scoresOf (t : List Event) : List EVal := (evalsOf t).map Prod.snd

def svStep (acc : List (Nat × EVal)) : Event → List (Nat × EVal)
  | Event.saveModel s _ _ _ _ sc => acc ++ [(s, sc)]
  | _ => acc

/-- The checkpoint saves of a trace: step and score, in order. -/
def savesOf (t : List Event) : List (Nat × EVal) := t.foldl svStep []

/-- The saves prescribed by the spec: keep exactly the evaluations whose
score strictly exceeds the running best, starting from `best`. -/
def savesSpecA : EVal → List (Nat × EVal) → List (Nat × EVal)
  | _, [] => []
  | best, (s, sc) :: rest =>
    if best.elt sc then (s, sc) :: savesSpecA sc rest
    else savesSpecA best rest

/-- The best-so-far update of src/train.py lines 88-93. -/
def updBest (b s : EVal) : EVal := if b.elt s then s else b

/-- The running best score after a list of evaluation scores. -/
def foldBest (b : EVal) (l : List EVal) : EVal := l.foldl updBest b

/-- One evaluation's effect on `(best_accuracy, wait_step)`
(src/train.py lines 88-97): improvement installs the score and resets the
counter, otherwise the counter is incremented (when bound). -/
def bwStep (p : EVal × Option Nat) (s : EVal) : EVal × Option Nat :=
  if p.1.elt s then (s, some 0) else (p.1, p.2.map (fun w => w + 1))

def bwFoldA (p : EVal × Option Nat) (l : List EVal) : EVal × Option Nat :=
  l.foldl bwStep p

/-- `(best_accuracy, wait_step)` after a list of evaluation scores, from
the initial `best_accuracy = -1` and unbound `wait_step`. -/
def bwFold (l : List EVal) : EVal × Option Nat :=
  bwFoldA (EVal.num (-1), none) l

def isForwardE : Event → Bool
  | Event.forwardE _ _ => true
  | _ => false

def isNanStopE : Event → Bool
  | Event.nanStop _ _ => true
  | _ => false

def isLogTrainE : Event → Bool
  | Event.logTrain _ _ _ _ _ => true
  | _ => false

/-- The state after the NaN halt (src/train.py lines 65-68). -/
def nanState (m : Model) (st : TrainState) : TrainState :=
  { st with global_step := st.global_step + 1, stop_training := true,
            trace := st.trace ++
              [Event.forwardE (st.global_step + 1) (m.lossOf (st.global_step + 1)),
               Event.nanStop (st.global_step + 1) (m.lossOf (st.global_step + 1))] }

/-- The gradient-accumulation block's events (src/train.py lines 72-76). -/
def gasEvents (args : Args) (step : Nat) : List Event :=
  if step % args.gradient_accumulation_steps = 0 then
    [Event.clipGrad step args.max_grad_norm, Event.optStep step,
     Event.schedStep step, Event.zeroGrad step]
  else []

/-- The state after lines 58-76 of src/train.py on a non-NaN batch: loss
recorded, backward pass, and possibly one optimizer update. -/
def coreState (args : Args) (m : Model) (st : TrainState) : TrainState :=
  { st with global_step := st.global_step + 1,
            train_losses := st.train_losses ++ [m.lossOf (st.global_step + 1)],
            version := if (st.global_step + 1) % args.gradient_accumulation_steps = 0
              then st.version + 1 else st.version,
            trace := (st.trace ++
              [Event.forwardE (st.global_step + 1) (m.lossOf (st.global_step + 1)),
               Event.appendLoss (st.global_step + 1) (m.lossOf (st.global_step + 1)),
               Event.backward (st.global_step + 1)]) ++
              gasEvents args (st.global_step + 1) }

/-- The state after the periodic evaluation and its log line
(src/train.py lines 78-87): buffer logged then reset. -/
def evalState (args : Args) (m : Model) (dev : DevData) (epoch : Nat)
    (st : TrainState) : TrainState :=
  { coreState args m st with
      train_losses := [],
      trace := (coreState args m st).trace ++
        [Event.evalE (st.global_step + 1) (coreState args m st).version
          (inference m (coreState args m st).version dev),
         Event.logTrain (st.global_step + 1) (coreState args m st).train_losses
          (npMeanE (coreState args m st).train_losses)
          (inference m (coreState args m st).version dev).score epoch] }

/-- The state after the improvement branch (src/train.py lines 88-95):
checkpoint saved, best score installed, wait counter reset. -/
def saveState (args : Args) (m : Model) (dev : DevData) (epoch : Nat)
    (st : TrainState) : TrainState :=
  { evalState args m dev epoch st with
      best_accuracy := (inference m (coreState args m st).version dev).score,
      wait_step := some 0,
      stop_training := false,
      trace := (evalState args m dev epoch st).trace ++
        [Event.saveModel (st.global_step + 1) (coreState args m st).version
          (osPathJoin args.output_dir "best-model.pt")
          ((m.stateDictAt (coreState args m st).version).map (fun kv => (kv.1, kv.2.cpu)))
          st.best_accuracy
          (inference m (coreState args m st).version dev).score] }

/-- The state after a non-improving evaluation incremented the wait counter
(src/train.py lines 96-100). -/
def waitState (args : Args) (m : Model) (dev : DevData) (epoch : Nat)
    (st : TrainState) (w : Nat) (stop : Bool) : TrainState :=
  { evalState args m dev epoch st with
      wait_step := some (w + 1),
      stop_training := stop }

/-- A restatement of `runBatch` with flattened record updates and single
appends, convenient for proofs; `runBatch_eq_runBatchC` proves it equal. -/
def runBatchC (args : Args) (m : Model) (dev : DevData) (epoch : Nat)
    (st : TrainState) : Except Err (TrainState × Bool) :=
  if (m.lossOf (st.global_step + 1)).isnan then
    Except.ok (nanState m st, true)
  else
    if (st.global_step + 1) % args.eval_period = 0 then
      if st.best_accuracy.elt ((inference m (coreState args m st).version dev).score) then
        Except.ok (saveState args m dev epoch st, false)
      else
        match st.wait_step with
        | none => Except.error (Err.unboundLocal "wait_step" (evalState args m dev epoch st))
        | some w =>
          if args.wait_step ≤ w + 1 then
            Except.ok (waitState args m dev epoch st w true, true)
          else
            Except.ok (waitState args m dev epoch st w st.stop_training, false)
    else
      Except.ok (coreState args m st, false)

/-- No NaN-halt event in the trace. -/
def nanFree (t : List Event) : Prop := ∀ s l, Event.nanStop s l ∉ t

/-- Every `logTrain` line averaged exactly the running buffer its prefix
leaves behind, i.e. the per-batch losses recorded since the previous
evaluation's reset. -/
def LogsOK (t : List Event) : Prop :=
  ∀ p s b mn sc ep q, t = p ++ Event.logTrain s b mn sc ep :: q →
    b = lossBuf p ∧ mn = npMeanE b

/-- Every event of the trace happened at a global step at most `n`. -/
def StepsLeP (n : Nat) (t : List Event) : Prop := ∀ e ∈ t, eventStep e ≤ n

/-- Every checkpoint save targeted `<output_dir>/best-model.pt`, saved the
host-moved copy of the state dict of the parameters it evaluated, and was
justified by a strict improvement. -/
def SaveDictP (args : Args) (m : Model) (t : List Event) : Prop :=
  ∀ s v pa d pb sc, Event.saveModel s v pa d pb sc ∈ t →
    pa = osPathJoin args.output_dir "best-model.pt"
    ∧ d = (m.stateDictAt v).map (fun kv => (kv.1, kv.2.cpu))
    ∧ pb.elt sc = true

/-- Every recorded evaluation happened at a step divisible by
`eval_period` and is a genuine `inference` call with saved predictions. -/
def EvalsP (args : Args) (m : Model) (dev : DevData) (t : List Event) : Prop :=
  ∀ s v inf, Event.evalE s v inf ∈ t →
    s % args.eval_period = 0 ∧ inf = inference m v dev true

/-- Every recorded forward pass carries the model's loss for that step, and
when the loss was not NaN a backward pass happened at the same step. -/
def FwdBaseP (m : Model) (t : List Event) : Prop :=
  ∀ s l, Event.forwardE s l ∈ t → l = m.lossOf s ∧
    (l.isnan = false → Event.backward s ∈ t)

/-- Every non-NaN forward pass at a step divisible by `eval_period` has a
recorded evaluation at the same step. -/
def FwdEvalP (args : Args) (t : List Event) : Prop :=
  ∀ s l, Event.forwardE s l ∈ t → l.isnan = false → s % args.eval_period = 0 →
    ∃ v inf, Event.evalE s v inf ∈ t

/-- Like `FwdEvalP`, but the evaluation of the batch at step `n` may still
be pending. -/
def FwdEvalExceptP (args : Args) (n : Nat) (t : List Event) : Prop :=
  ∀ s l, Event.forwardE s l ∈ t → l.isnan = false → s % args.eval_period = 0 →
    (∃ v inf, Event.evalE s v inf ∈ t) ∨ s = n

/-- The optimizer machinery ran exactly at the accumulation boundaries:
after a non-NaN forward at a step divisible by
`gradient_accumulation_steps` the trace contains the contiguous
clip/step/step/zero block at that step, and at any other step none of the
four events occurs. -/
def GasP (args : Args) (t : List Event) : Prop :=
  ∀ s l, Event.forwardE s l ∈ t → l.isnan = false →
    (s % args.gradient_accumulation_steps = 0 →
      ∃ p q, t = p ++ Event.clipGrad s args.max_grad_norm ::
        Event.optStep s :: Event.schedStep s :: Event.zeroGrad s :: q)
    ∧ (¬ s % args.gradient_accumulation_steps = 0 →
      (∀ c, Event.clipGrad s c ∉ t) ∧ Event.optStep s ∉ t
      ∧ Event.schedStep s ∉ t ∧ Event.zeroGrad s ∉ t)

/-- Invariant of the training loop relating the mutable bookkeeping to the
event trace. -/
structure Inv (args : Args) (m : Model) (dev : DevData) (st : TrainState) : Prop where
  stepsLe : StepsLeP st.global_step st.trace
  buf : st.train_losses = lossBuf st.trace
  bw : (st.best_accuracy, st.wait_step) = bwFold (scoresOf st.trace)
  logs : LogsOK st.trace
  saves : savesOf st.trace = savesSpecA (EVal.num (-1)) (evalsOf st.trace)
  saveDict : SaveDictP args m st.trace
  evals : EvalsP args m dev st.trace
  fwd : FwdBaseP m st.trace
  fwdEval : FwdEvalP args st.trace
  gas : GasP args st.trace
  waitSome : evalsOf st.trace ≠ [] → ∃ w, st.wait_step = some w
  firstEval : ∀ sc rest, scoresOf st.trace = sc :: rest →
    (EVal.num (-1)).elt sc = true
  stopWait : st.stop_training = false → st.wait_step = none ∨ st.wait_step = some 0
    ∨ ∃ w, st.wait_step = some w ∧ w < args.wait_step

/-- The loop was left by the NaN halt of src/train.py lines 65-68. -/
def NanEnd (m : Model) (st : TrainState) : Prop :=
  st.stop_training = true ∧
  ∃ pre s l, st.trace = pre ++ [Event.forwardE s l, Event.nanStop s l]
    ∧ l = m.lossOf s ∧ l.isnan = true ∧ nanFree pre ∧ ∀ e ∈ pre, eventStep e < s

/-- The loop was left by the early-stopping check of src/train.py
lines 97-100: the wait counter reached the threshold. -/
def PatienceEnd (args : Args) (st : TrainState) : Prop :=
  st.stop_training = true ∧ nanFree st.trace
  ∧ ∃ w, st.wait_step = some w ∧ args.wait_step ≤ w

/-- How a `train` run can end when it returns. -/
def EndState (args : Args) (m : Model) (st : TrainState) : Prop :=
  (st.stop_training = false ∧ nanFree st.trace) ∨ NanEnd m st ∨ PatienceEnd args st

/-- What a raised exception looks like: the `wait_step += 1` of src/train.py
line 97 read the never-assigned local, which requires the one evaluation in
the trace — the first — not to have improved on the initial best of -1. -/
def ErrSpec (e : Err) : Prop :=
  ∃ st, e = Err.unboundLocal "wait_step" st ∧ st.wait_step = none
    ∧ nanFree st.trace
    ∧ ∃ sc, scoresOf st.trace = [sc] ∧ (EVal.num (-1)).elt sc = false

/-! ### Concrete scenarios used by the witnesses -/

/-- Scenario 1: 3 epochs of 2 batches, accumulation 2, evaluation every 2
steps, all evaluations improving. -/
def w1Args : Args :=
  { num_train_epochs := 3, gradient_accumulation_steps := 2, eval_period := 2,
    wait_step := 2, max_grad_norm := 1, weight_decay := 1/100,
    output_dir := "out", do_train := true, do_predict := true }

def w1Model : Model :=
  { lossOf := fun s => EVal.num s,
    genOut := fun v _ _ => v,
    stateDictAt := fun v => [("w", { data := Int.ofNat v, onCpu := false })],
    named_parameters := [("encoder.weight", { data := 1, onCpu := false }),
                         ("encoder.bias", { data := 2, onCpu := false }),
                         ("ln.LayerNorm.weight", { data := 3, onCpu := false })] }

def w1Dev : DevData :=
  { batches := [7], num_beams := 4, max_output_length := 10,
    decode_batch := fun x => x, evaluate := fun ps => ps.map (fun p => (p : ℚ)) }

/-- Scenario 2 (the C2 counterexample): patience threshold 1; the first
evaluation improves, the second does not, so training stops with the wait
counter exactly equal to the threshold. -/
def w2Args : Args :=
  { num_train_epochs := 3, gradient_accumulation_steps := 1, eval_period := 1,
    wait_step := 1, max_grad_norm := 1, weight_decay := 0,
    output_dir := "out", do_train := true, do_predict := false }

def w2Model : Model :=
  { lossOf := fun _ => EVal.num 0,
    genOut := fun v _ _ => v, stateDictAt := fun _ => [],
    named_parameters := [] }

def w2Dev : DevData :=
  { batches := [0], num_beams := 1, max_output_length := 5,
    decode_batch := fun x => x,
    evaluate := fun ps => ps.map (fun p => if p = 1 then (1:ℚ) else 0) }

/-- Scenario 3: the forward loss at global step 2 is NaN. -/
def w3Args : Args :=
  { num_train_epochs := 2, gradient_accumulation_steps := 5, eval_period := 5,
    wait_step := 10, max_grad_norm := 1, weight_decay := 0,
    output_dir := "out", do_train := true, do_predict := false }

def w3Model : Model :=
  { lossOf := fun s => if s = 2 then EVal.nan else EVal.num 1,
    genOut := fun v _ _ => v, stateDictAt := fun _ => [],
    named_parameters := [] }

/-- Scenario 7: a single batch followed by an immediate evaluation, giving
a four-event prefix before the log line. -/
def w7Args : Args :=
  { num_train_epochs := 1, gradient_accumulation_steps := 2, eval_period := 1,
    wait_step := 5, max_grad_norm := 1, weight_decay := 0,
    output_dir := "out", do_train := true, do_predict := false }

def w7Model : Model :=
  { lossOf := fun _ => EVal.num 1,
    genOut := fun _ b _ => b, stateDictAt := fun _ => [],
    named_parameters := [] }

def w7Dev : DevData :=
  { batches := [5], num_beams := 1, max_output_length := 5,
    decode_batch := fun x => x, evaluate := fun ps => ps.map (fun p => (p : ℚ)) }

/-- The `inference` result of scenario 7's single evaluation. -/
def w7Inf : InfResult :=
  { genCalls := [(5, { num_beams := 1, max_length := 5, early_stopping := true })],
    predictions := [5], savedPreds := some [5], score := EVal.num 5 }

/-- The trace prefix of scenario 7 before its log line. -/
def w7Front : List Event :=
  [Event.forwardE 1 (EVal.num 1), Event.appendLoss 1 (EVal.num 1),
   Event.backward 1, Event.evalE 1 0 w7Inf]

/-- The `inference` result of scenario 1's first evaluation. -/
def w1Inf : InfResult :=
  { genCalls := [(7, { num_beams := 4, max_length := 10, early_stopping := true })],
    predictions := [1], savedPreds := some [1], score := EVal.num 1 }

/-- Scenario 8: an empty dev set makes the first evaluation score
`np.mean([]) = NaN`, which does not improve on -1, so the never-assigned
`wait_step` is read. -/
def w8Args : Args :=
  { num_train_epochs := 1, gradient_accumulation_steps := 1, eval_period := 1,
    wait_step := 3, max_grad_norm := 1, weight_decay := 0,
    output_dir := "out", do_train := true, do_predict := false }

def w8Dev : DevData :=
  { batches := [], num_beams := 1, max_output_length := 5,
    decode_batch := fun x => x, evaluate := fun ps => ps.map (fun _ => (0:ℚ)) }

end ODQA

namespace ODQA

/-! ### Basic lemmas about the trace projections -/

theorem bufStep_forwardE (acc s l) : bufStep acc (Event.forwardE s l) = acc := rfl
theorem bufStep_nanStop (acc s l) : bufStep acc (Event.nanStop s l) = acc := rfl
theorem bufStep_appendLoss (acc s l) :
    bufStep acc (Event.appendLoss s l) = acc ++ [l] := rfl
theorem bufStep_backward (acc s) : bufStep acc (Event.backward s) = acc := rfl
theorem bufStep_clipGrad (acc s c) : bufStep acc (Event.clipGrad s c) = acc := rfl
theorem bufStep_optStep (acc s) : bufStep acc (Event.optStep s) = acc := rfl
theorem bufStep_schedStep (acc s) : bufStep acc (Event.schedStep s) = acc := rfl
theorem bufStep_zeroGrad (acc s) : bufStep acc (Event.zeroGrad s) = acc := rfl
theorem bufStep_evalE (acc s v inf) : bufStep acc (Event.evalE s v inf) = acc := rfl
theorem bufStep_logTrain (acc s b mn sc ep) :
    bufStep acc (Event.logTrain s b mn sc ep) = [] := rfl
theorem bufStep_saveModel (acc s v pa d pb sc) :
    bufStep acc (Event.saveModel s v pa d pb sc) = acc := rfl

theorem lossBufA_nil (acc) : lossBufA acc [] = acc := rfl

theorem lossBufA_cons (acc e t) :
    lossBufA acc (e :: t) = lossBufA (bufStep acc e) t := rfl

theorem lossBufA_append (acc t es) :
    lossBufA acc (t ++ es) = lossBufA (lossBufA acc t) es := by
  simp [lossBufA, List.foldl_append]

theorem lossBuf_append (t es) : lossBuf (t ++ es) = lossBufA (lossBuf t) es := by
  simp [lossBuf, lossBufA_append]

theorem evStep_acc (acc e) : evStep acc e = acc ++ evStep [] e := by
  cases e <;> simp [evStep]

theorem foldl_evStep_acc (t : List Event) (acc) :
    t.foldl evStep acc = acc ++ t.foldl evStep [] := by
  induction t generalizing acc with
  | nil => simp
  | cons e t ih =>
    rw [List.foldl_cons, List.foldl_cons, ih (evStep acc e), ih (evStep [] e),
      evStep_acc, List.append_assoc]

theorem evalsOf_append (t es) : evalsOf (t ++ es) = evalsOf t ++ evalsOf es := by
  rw [evalsOf, List.foldl_append, foldl_evStep_acc]
  rfl

theorem scoresOf_append (t es) : scoresOf (t ++ es) = scoresOf t ++ scoresOf es := by
  simp [scoresOf, evalsOf_append]

theorem svStep_acc (acc e) : svStep acc e = acc ++ svStep [] e := by
  cases e <;> simp [svStep]

theorem foldl_svStep_acc (t : List Event) (acc) :
    t.foldl svStep acc = acc ++ t.foldl svStep [] := by
  induction t generalizing acc with
  | nil => simp
  | cons e t ih =>
    rw [List.foldl_cons, List.foldl_cons, ih (svStep acc e), ih (svStep [] e),
      svStep_acc, List.append_assoc]

theorem savesOf_append (t es) : savesOf (t ++ es) = savesOf t ++ savesOf es := by
  rw [savesOf, List.foldl_append, foldl_svStep_acc]
  rfl

theorem foldBest_append (b l s) :
    foldBest b (l ++ [s]) = updBest (foldBest b l) s := by
  simp [foldBest, List.foldl_append]

theorem bwFoldA_append (p l s) :
    bwFoldA p (l ++ [s]) = bwStep (bwFoldA p l) s := by
  simp [bwFoldA, List.foldl_append]

theorem bwFold_append (l s) : bwFold (l ++ [s]) = bwStep (bwFold l) s := by
  simp [bwFold, bwFoldA_append]

theorem bwStep_fst (p s) : (bwStep p s).1 = updBest p.1 s := by
  rw [bwStep, updBest]
  split <;> rfl

theorem bwFoldA_fst (l p) : (bwFoldA p l).1 = foldBest p.1 l := by
  induction l generalizing p with
  | nil => rfl
  | cons s l ih =>
    show (bwFoldA (bwStep p s) l).1 = foldBest p.1 (s :: l)
    rw [ih, bwStep_fst]
    rfl

theorem bwFold_fst (l) : (bwFold l).1 = foldBest (EVal.num (-1)) l :=
  bwFoldA_fst l _

theorem savesSpecA_append (l : List (Nat × EVal)) (b : EVal) (x : Nat × EVal) :
    savesSpecA b (l ++ [x]) = savesSpecA b l ++
      (if (foldBest b (l.map Prod.snd)).elt x.2 then [x] else []) := by
  induction l generalizing b with
  | nil =>
    obtain ⟨s, sc⟩ := x
    simp [savesSpecA, foldBest]
  | cons y l ih =>
    obtain ⟨s, sc⟩ := y
    simp only [List.cons_append, savesSpecA]
    have hfb : foldBest b (((s, sc) :: l).map Prod.snd)
        = foldBest (updBest b sc) (l.map Prod.snd) := rfl
    rw [hfb]
    by_cases h : b.elt sc = true
    · have hu : updBest b sc = sc := by rw [updBest, if_pos h]
      rw [if_pos h, if_pos h, List.append_eq, ih sc, hu, List.cons_append]
    · have hu : updBest b sc = b := by rw [updBest, if_neg h]
      rw [if_neg h, if_neg h, List.append_eq, ih b, hu]

end ODQA

namespace ODQA

/-! ### Lemmas about possibly-NaN values -/

theorem EVal.elt_le (a b : EVal) (h : a.elt b = true) : EVal.le a b := by
  cases a with
  | nan => simp [EVal.elt] at h
  | num x =>
    cases b with
    | nan => simp [EVal.elt] at h
    | num y =>
      simp only [EVal.elt, decide_eq_true_eq] at h
      show x ≤ y
      exact le_of_lt h

theorem EVal.le_refl_of_num (x : ℚ) : EVal.le (EVal.num x) (EVal.num x) := by
  show x ≤ x
  exact le_rfl

theorem updBest_num (x : ℚ) (s : EVal) :
    (∃ y, updBest (EVal.num x) s = EVal.num y)
    ∧ EVal.le (EVal.num x) (updBest (EVal.num x) s) := by
  rw [updBest]
  by_cases h : (EVal.num x).elt s = true
  · rw [if_pos h]
    cases s with
    | num y => exact ⟨⟨y, rfl⟩, EVal.elt_le _ _ h⟩
    | nan => simp [EVal.elt] at h
  · rw [if_neg h]
    exact ⟨⟨x, rfl⟩, EVal.le_refl_of_num x⟩

/-- The running best score along the evaluations is monotone. -/
theorem chain_scanl_updBest (l : List EVal) (b : EVal) (hb : ∃ x, b = EVal.num x) :
    List.Chain' EVal.le (List.scanl updBest b l) := by
  induction l generalizing b with
  | nil =>
    rw [List.scanl_nil]
    exact List.chain'_singleton b
  | cons s l ih =>
    obtain ⟨x, rfl⟩ := hb
    rw [List.scanl_cons, List.singleton_append]
    obtain ⟨hnum, hle⟩ := updBest_num x s
    refine List.chain'_cons'.2 ⟨?_, ih _ hnum⟩
    intro y hy
    have hhd : (List.scanl updBest (updBest (EVal.num x) s) l).head?
        = some (updBest (EVal.num x) s) := by
      cases l <;> rfl
    rw [hhd] at hy
    cases hy
    exact hle

/-! ### Generic list helpers -/

theorem append_single_split {α : Type} (t : List α) (e : α) (p : List α) (x : α)
    (q : List α) (h : t ++ [e] = p ++ x :: q) :
    (p = t ∧ x = e ∧ q = []) ∨ ∃ q1, q = q1 ++ [e] ∧ t = p ++ x :: q1 := by
  rcases List.eq_nil_or_concat q with rfl | ⟨q1, a, rfl⟩
  · left
    obtain ⟨h3, h4⟩ := List.append_inj' h rfl
    refine ⟨h3.symm, ?_, rfl⟩
    injection h4 with h5
    exact h5.symm
  · right
    simp only [List.concat_eq_append] at h ⊢
    have h2 : t ++ [e] = (p ++ x :: q1) ++ [a] := by
      rw [h]
      simp [List.append_assoc]
    obtain ⟨h3, h4⟩ := List.append_inj' h2 rfl
    injection h4 with h5
    refine ⟨q1, ?_, h3⟩
    rw [h5]

theorem stepsLe_append (t es : List Event) (n n' : Nat)
    (ht : ∀ e ∈ t, eventStep e ≤ n) (hn : n ≤ n')
    (hes : ∀ e ∈ es, eventStep e ≤ n') :
    ∀ e ∈ t ++ es, eventStep e ≤ n' := by
  intro e he
  rcases List.mem_append.1 he with h | h
  · exact le_trans (ht e h) hn
  · exact hes e h

theorem notMem_of_stepsLe (t : List Event) (n : Nat) (x : Event)
    (ht : ∀ e ∈ t, eventStep e ≤ n) (hx : n < eventStep x) : x ∉ t := by
  intro hmem
  exact absurd (ht x hmem) (not_le.2 hx)

theorem nanFree_append (t es : List Event) (ht : nanFree t) (hes : nanFree es) :
    nanFree (t ++ es) := by
  intro s l hmem
  rcases List.mem_append.1 hmem with h | h
  · exact ht s l h
  · exact hes s l h

theorem LogsOK_append (t : List Event) (e : Event) (H : LogsOK t)
    (he : (∀ s b mn sc ep, e ≠ Event.logTrain s b mn sc ep)
        ∨ ∃ s sc ep, e = Event.logTrain s (lossBuf t) (npMeanE (lossBuf t)) sc ep) :
    LogsOK (t ++ [e]) := by
  intro p s b mn sc ep q hsplit
  rcases append_single_split t e p _ q hsplit with ⟨hp, hx, hq⟩ | ⟨q1, hq, ht'⟩
  · rcases he with he1 | ⟨s', sc', ep', rfl⟩
    · exact absurd hx.symm (he1 s b mn sc ep)
    · subst hp
      injection hx.symm with h1 h2 h3 h4 h5
      exact ⟨h2.symm, by rw [← h3, h2]⟩
  · exact H p s b mn sc ep q1 ht'

end ODQA

namespace ODQA

set_option maxHeartbeats 1000000 in
theorem runBatch_eq_runBatchC (args : Args) (m : Model) (dev : DevData)
    (epoch : Nat) (st : TrainState) :
    runBatch args m dev epoch st = runBatchC args m dev epoch st := by
  unfold runBatch runBatchC
  by_cases h1 : (m.lossOf (st.global_step + 1)).isnan = true
  · simp [h1, nanState, List.append_assoc]
  · by_cases h2 : (st.global_step + 1) % args.gradient_accumulation_steps = 0
    · by_cases h3 : (st.global_step + 1) % args.eval_period = 0
      · by_cases h4 : st.best_accuracy.elt
            ((inference m (st.version + 1) dev).score) = true
        · simp [h1, h2, h3, coreState, h4, evalState, saveState, gasEvents,
            List.append_assoc]
        · cases hw : st.wait_step with
          | none => simp [h1, h2, h3, coreState, h4, hw, evalState, gasEvents,
              List.append_assoc]
          | some w =>
            by_cases h5 : args.wait_step ≤ w + 1
            · simp [h1, h2, h3, coreState, h4, hw, h5, waitState, evalState,
                gasEvents, List.append_assoc]
            · simp [h1, h2, h3, coreState, h4, hw, h5, waitState, evalState,
                gasEvents, List.append_assoc]
      · simp [h1, h2, h3, coreState, gasEvents, List.append_assoc]
    · by_cases h3 : (st.global_step + 1) % args.eval_period = 0
      · by_cases h4 : st.best_accuracy.elt ((inference m st.version dev).score) = true
        · simp [h1, h2, h3, coreState, h4, evalState, saveState, gasEvents,
            List.append_assoc]
        · cases hw : st.wait_step with
          | none => simp [h1, h2, h3, coreState, h4, hw, evalState, gasEvents,
              List.append_assoc]
          | some w =>
            by_cases h5 : args.wait_step ≤ w + 1
            · simp [h1, h2, h3, coreState, h4, hw, h5, waitState, evalState,
                gasEvents, List.append_assoc]
            · simp [h1, h2, h3, coreState, h4, hw, h5, waitState, evalState,
                gasEvents, List.append_assoc]
      · simp [h1, h2, h3, coreState, gasEvents, List.append_assoc]

end ODQA

namespace ODQA

/-! ### Per-constructor values of the projection steps -/

theorem evStep_forwardE (acc s l) : evStep acc (Event.forwardE s l) = acc := rfl
theorem evStep_nanStop (acc s l) : evStep acc (Event.nanStop s l) = acc := rfl
theorem evStep_appendLoss (acc s l) : evStep acc (Event.appendLoss s l) = acc := rfl
theorem evStep_backward (acc s) : evStep acc (Event.backward s) = acc := rfl
theorem evStep_clipGrad (acc s c) : evStep acc (Event.clipGrad s c) = acc := rfl
theorem evStep_optStep (acc s) : evStep acc (Event.optStep s) = acc := rfl
theorem evStep_schedStep (acc s) : evStep acc (Event.schedStep s) = acc := rfl
theorem evStep_zeroGrad (acc s) : evStep acc (Event.zeroGrad s) = acc := rfl
theorem evStep_evalE (acc s v inf) :
    evStep acc (Event.evalE s v inf) = acc ++ [(s, inf.score)] := rfl
theorem evStep_logTrain (acc s b mn sc ep) :
    evStep acc (Event.logTrain s b mn sc ep) = acc := rfl
theorem evStep_saveModel (acc s v pa d pb sc) :
    evStep acc (Event.saveModel s v pa d pb sc) = acc := rfl

theorem svStep_forwardE (acc s l) : svStep acc (Event.forwardE s l) = acc := rfl
theorem svStep_nanStop (acc s l) : svStep acc (Event.nanStop s l) = acc := rfl
theorem svStep_appendLoss (acc s l) : svStep acc (Event.appendLoss s l) = acc := rfl
theorem svStep_backward (acc s) : svStep acc (Event.backward s) = acc := rfl
theorem svStep_clipGrad (acc s c) : svStep acc (Event.clipGrad s c) = acc := rfl
theorem svStep_optStep (acc s) : svStep acc (Event.optStep s) = acc := rfl
theorem svStep_schedStep (acc s) : svStep acc (Event.schedStep s) = acc := rfl
theorem svStep_zeroGrad (acc s) : svStep acc (Event.zeroGrad s) = acc := rfl
theorem svStep_evalE (acc s v inf) : svStep acc (Event.evalE s v inf) = acc := rfl
theorem svStep_logTrain (acc s b mn sc ep) :
    svStep acc (Event.logTrain s b mn sc ep) = acc := rfl
theorem svStep_saveModel (acc s v pa d pb sc) :
    svStep acc (Event.saveModel s v pa d pb sc) = acc ++ [(s, sc)] := rfl

theorem ne_logTrain_of_not_isLogTrain (e : Event) (h : isLogTrainE e = false) :
    ∀ s b mn sc ep, e ≠ Event.logTrain s b mn sc ep := by
  intro s b mn sc ep heq
  subst heq
  simp [isLogTrainE] at h

theorem LogsOK_append_silent (t es : List Event) (H : LogsOK t)
    (hes : ∀ e ∈ es, isLogTrainE e = false) : LogsOK (t ++ es) := by
  induction es using List.reverseRecOn with
  | nil => simpa using H
  | append_singleton es e ih =>
    rw [← List.append_assoc]
    refine LogsOK_append (t ++ es) e ?_ ?_
    · exact ih (fun x hx => hes x (List.mem_append_left _ hx))
    · exact Or.inl (ne_logTrain_of_not_isLogTrain e
        (hes e (List.mem_append_right _ (List.mem_singleton_self e))))

/-! ### Facts about the gradient-accumulation block -/

theorem mem_gasEvents (args : Args) (s : Nat) (e : Event) (h : e ∈ gasEvents args s) :
    e = Event.clipGrad s args.max_grad_norm ∨ e = Event.optStep s
    ∨ e = Event.schedStep s ∨ e = Event.zeroGrad s := by
  rw [gasEvents] at h
  split at h
  · simpa using h
  · simp at h

theorem gasEvents_step (args : Args) (s : Nat) :
    ∀ e ∈ gasEvents args s, eventStep e = s := by
  intro e he
  rcases mem_gasEvents args s e he with rfl | rfl | rfl | rfl <;> rfl

theorem gasEvents_not_log (args : Args) (s : Nat) :
    ∀ e ∈ gasEvents args s, isLogTrainE e = false := by
  intro e he
  rcases mem_gasEvents args s e he with rfl | rfl | rfl | rfl <;> rfl

theorem lossBufA_gasEvents (args s acc) : lossBufA acc (gasEvents args s) = acc := by
  rw [gasEvents]
  split
  · simp [lossBufA, bufStep_clipGrad, bufStep_optStep, bufStep_schedStep,
      bufStep_zeroGrad]
  · rfl

theorem evalsOf_gasEvents (args s) : evalsOf (gasEvents args s) = [] := by
  rw [gasEvents]
  split
  · simp [evalsOf, evStep_clipGrad, evStep_optStep, evStep_schedStep, evStep_zeroGrad]
  · rfl

theorem savesOf_gasEvents (args s) : savesOf (gasEvents args s) = [] := by
  rw [gasEvents]
  split
  · simp [savesOf, svStep_clipGrad, svStep_optStep, svStep_schedStep, svStep_zeroGrad]
  · rfl

theorem gasEvents_nanFree (args s) : nanFree (gasEvents args s) := by
  intro s' l' hmem
  rcases mem_gasEvents args s _ hmem with h | h | h | h <;> exact Event.noConfusion h

end ODQA

namespace ODQA

theorem Inv_nanState (args : Args) (m : Model) (dev : DevData) (st : TrainState)
    (hInv : Inv args m dev st)
    (h1 : (m.lossOf (st.global_step + 1)).isnan = true) :
    Inv args m dev (nanState m st) := by
  have htrace : (nanState m st).trace = st.trace ++
      [Event.forwardE (st.global_step + 1) (m.lossOf (st.global_step + 1)),
       Event.nanStop (st.global_step + 1) (m.lossOf (st.global_step + 1))] := rfl
  refine { stepsLe := ?_, buf := ?_, bw := ?_, logs := ?_, saves := ?_,
           saveDict := ?_, evals := ?_, fwd := ?_, fwdEval := ?_, gas := ?_,
           waitSome := ?_, firstEval := ?_, stopWait := ?_ }
  · rw [htrace]
    refine stepsLe_append _ _ _ _ hInv.stepsLe (Nat.le_succ _) ?_
    intro e he
    simp only [List.mem_cons, List.not_mem_nil, or_false] at he
    rcases he with rfl | rfl <;> exact le_refl _
  · show st.train_losses = lossBuf ((nanState m st).trace)
    rw [htrace, lossBuf_append]
    simp [lossBufA, bufStep_forwardE, bufStep_nanStop, ← hInv.buf]
  · show (st.best_accuracy, st.wait_step) = bwFold (scoresOf ((nanState m st).trace))
    rw [htrace, scoresOf_append]
    have h3 : scoresOf [Event.forwardE (st.global_step + 1) (m.lossOf (st.global_step + 1)),
        Event.nanStop (st.global_step + 1) (m.lossOf (st.global_step + 1))] = [] := rfl
    rw [h3, List.append_nil]
    exact hInv.bw
  · rw [htrace]
    refine LogsOK_append_silent _ _ hInv.logs ?_
    intro e he
    simp only [List.mem_cons, List.not_mem_nil, or_false] at he
    rcases he with rfl | rfl <;> rfl
  · rw [htrace, savesOf_append, evalsOf_append]
    have h2 : savesOf [Event.forwardE (st.global_step + 1) (m.lossOf (st.global_step + 1)),
        Event.nanStop (st.global_step + 1) (m.lossOf (st.global_step + 1))] = [] := rfl
    have h3 : evalsOf [Event.forwardE (st.global_step + 1) (m.lossOf (st.global_step + 1)),
        Event.nanStop (st.global_step + 1) (m.lossOf (st.global_step + 1))] = [] := rfl
    rw [h2, h3, List.append_nil, List.append_nil]
    exact hInv.saves
  · intro s v pa d pb sc hmem
    rw [htrace] at hmem
    rcases List.mem_append.1 hmem with h | h
    · exact hInv.saveDict s v pa d pb sc h
    · simp at h
  · intro s v inf hmem
    rw [htrace] at hmem
    rcases List.mem_append.1 hmem with h | h
    · exact hInv.evals s v inf h
    · simp at h
  · intro s l hmem
    rw [htrace] at hmem
    rcases List.mem_append.1 hmem with h | h
    · obtain ⟨hl, himp⟩ := hInv.fwd s l h
      refine ⟨hl, fun hnn => ?_⟩
      rw [htrace]
      exact List.mem_append_left _ (himp hnn)
    · simp only [List.mem_cons, List.not_mem_nil, or_false] at h
      rcases h with h | h
      · obtain ⟨rfl, rfl⟩ := h
        exact ⟨rfl, fun hnn => absurd h1 (by rw [hnn]; simp)⟩
      · exact absurd h (by simp)
  · intro s l hmem hnn hmod
    rw [htrace] at hmem
    rcases List.mem_append.1 hmem with h | h
    · obtain ⟨v, inf, hv⟩ := hInv.fwdEval s l h hnn hmod
      exact ⟨v, inf, by rw [htrace]; exact List.mem_append_left _ hv⟩
    · simp only [List.mem_cons, List.not_mem_nil, or_false] at h
      rcases h with h | h
      · obtain ⟨rfl, rfl⟩ := h
        exact absurd h1 (by rw [hnn]; simp)
      · exact absurd h (by simp)
  · intro s l hmem hnn
    rw [htrace] at hmem
    rcases List.mem_append.1 hmem with h | h
    · obtain ⟨hbl, habs⟩ := hInv.gas s l h hnn
      constructor
      · intro hmod
        obtain ⟨p, q, hpq⟩ := hbl hmod
        refine ⟨p, q ++ [Event.forwardE (st.global_step + 1) (m.lossOf (st.global_step + 1)),
          Event.nanStop (st.global_step + 1) (m.lossOf (st.global_step + 1))], ?_⟩
        rw [htrace, hpq]
        simp [List.append_assoc]
      · intro hmod
        obtain ⟨hc, ho, hs, hz⟩ := habs hmod
        rw [htrace]
        refine ⟨fun c hmemc => ?_, fun hmemc => ?_, fun hmemc => ?_, fun hmemc => ?_⟩
        · rcases List.mem_append.1 hmemc with h' | h'
          · exact hc c h'
          · simp at h'
        · rcases List.mem_append.1 hmemc with h' | h'
          · exact ho h'
          · simp at h'
        · rcases List.mem_append.1 hmemc with h' | h'
          · exact hs h'
          · simp at h'
        · rcases List.mem_append.1 hmemc with h' | h'
          · exact hz h'
          · simp at h'
    · simp only [List.mem_cons, List.not_mem_nil, or_false] at h
      rcases h with h | h
      · obtain ⟨rfl, rfl⟩ := h
        exact absurd h1 (by rw [hnn]; simp)
      · exact absurd h (by simp)
  · intro hne
    rw [htrace, evalsOf_append] at hne
    have h3 : evalsOf [Event.forwardE (st.global_step + 1) (m.lossOf (st.global_step + 1)),
        Event.nanStop (st.global_step + 1) (m.lossOf (st.global_step + 1))] = [] := rfl
    rw [h3, List.append_nil] at hne
    exact hInv.waitSome hne
  · intro sc rest hsc
    rw [htrace, scoresOf_append] at hsc
    have h3 : scoresOf [Event.forwardE (st.global_step + 1) (m.lossOf (st.global_step + 1)),
        Event.nanStop (st.global_step + 1) (m.lossOf (st.global_step + 1))] = [] := rfl
    rw [h3, List.append_nil] at hsc
    exact hInv.firstEval sc rest hsc
  · intro h
    simp [nanState] at h

theorem NanEnd_nanState (args : Args) (m : Model) (dev : DevData) (st : TrainState)
    (hInv : Inv args m dev st) (hnf : nanFree st.trace)
    (h1 : (m.lossOf (st.global_step + 1)).isnan = true) :
    NanEnd m (nanState m st) := by
  refine ⟨rfl, st.trace, st.global_step + 1, m.lossOf (st.global_step + 1),
    rfl, rfl, h1, hnf, ?_⟩
  intro e he
  exact lt_of_le_of_lt (hInv.stepsLe e he) (Nat.lt_succ_self _)

end ODQA

namespace ODQA

/-- Effect of one non-NaN batch's forward/append/backward events plus the
conditional accumulation block on all trace predicates. -/
theorem core_exts (args : Args) (m : Model) (dev : DevData) (n : Nat)
    (t : List Event) (hnn : (m.lossOf (n + 1)).isnan = false)
    (hsteps : StepsLeP n t) (hlogs : LogsOK t) (hsd : SaveDictP args m t)
    (hev : EvalsP args m dev t) (hfb : FwdBaseP m t) (hfe : FwdEvalP args t)
    (hgas : GasP args t) (hnf : nanFree t) :
    StepsLeP (n + 1) ((t ++ [Event.forwardE (n + 1) (m.lossOf (n + 1)),
        Event.appendLoss (n + 1) (m.lossOf (n + 1)), Event.backward (n + 1)])
        ++ gasEvents args (n + 1))
    ∧ LogsOK ((t ++ [Event.forwardE (n + 1) (m.lossOf (n + 1)),
        Event.appendLoss (n + 1) (m.lossOf (n + 1)), Event.backward (n + 1)])
        ++ gasEvents args (n + 1))
    ∧ SaveDictP args m ((t ++ [Event.forwardE (n + 1) (m.lossOf (n + 1)),
        Event.appendLoss (n + 1) (m.lossOf (n + 1)), Event.backward (n + 1)])
        ++ gasEvents args (n + 1))
    ∧ EvalsP args m dev ((t ++ [Event.forwardE (n + 1) (m.lossOf (n + 1)),
        Event.appendLoss (n + 1) (m.lossOf (n + 1)), Event.backward (n + 1)])
        ++ gasEvents args (n + 1))
    ∧ FwdBaseP m ((t ++ [Event.forwardE (n + 1) (m.lossOf (n + 1)),
        Event.appendLoss (n + 1) (m.lossOf (n + 1)), Event.backward (n + 1)])
        ++ gasEvents args (n + 1))
    ∧ FwdEvalExceptP args (n + 1) ((t ++ [Event.forwardE (n + 1) (m.lossOf (n + 1)),
        Event.appendLoss (n + 1) (m.lossOf (n + 1)), Event.backward (n + 1)])
        ++ gasEvents args (n + 1))
    ∧ GasP args ((t ++ [Event.forwardE (n + 1) (m.lossOf (n + 1)),
        Event.appendLoss (n + 1) (m.lossOf (n + 1)), Event.backward (n + 1)])
        ++ gasEvents args (n + 1))
    ∧ nanFree ((t ++ [Event.forwardE (n + 1) (m.lossOf (n + 1)),
        Event.appendLoss (n + 1) (m.lossOf (n + 1)), Event.backward (n + 1)])
        ++ gasEvents args (n + 1))
    ∧ lossBuf ((t ++ [Event.forwardE (n + 1) (m.lossOf (n + 1)),
        Event.appendLoss (n + 1) (m.lossOf (n + 1)), Event.backward (n + 1)])
        ++ gasEvents args (n + 1)) = lossBuf t ++ [m.lossOf (n + 1)]
    ∧ evalsOf ((t ++ [Event.forwardE (n + 1) (m.lossOf (n + 1)),
        Event.appendLoss (n + 1) (m.lossOf (n + 1)), Event.backward (n + 1)])
        ++ gasEvents args (n + 1)) = evalsOf t
    ∧ savesOf ((t ++ [Event.forwardE (n + 1) (m.lossOf (n + 1)),
        Event.appendLoss (n + 1) (m.lossOf (n + 1)), Event.backward (n + 1)])
        ++ gasEvents args (n + 1)) = savesOf t := by
  set L := m.lossOf (n + 1) with hL
  set CE : List Event := [Event.forwardE (n + 1) L, Event.appendLoss (n + 1) L,
    Event.backward (n + 1)] with hCE
  have hmemCE : ∀ e ∈ CE, e = Event.forwardE (n + 1) L ∨
      e = Event.appendLoss (n + 1) L ∨ e = Event.backward (n + 1) := by
    intro e he
    rw [hCE] at he
    simpa using he
  have hmemSplit : ∀ x : Event, x ∈ (t ++ CE) ++ gasEvents args (n + 1) →
      x ∈ t ∨ x ∈ CE ∨ x ∈ gasEvents args (n + 1) := by
    intro x hx
    rcases List.mem_append.1 hx with hx | hx
    · rcases List.mem_append.1 hx with hx | hx
      · exact Or.inl hx
      · exact Or.inr (Or.inl hx)
    · exact Or.inr (Or.inr hx)
  refine ⟨?_, ?_, ?_, ?_, ?_, ?_, ?_, ?_, ?_, ?_, ?_⟩
  · intro e he
    rcases hmemSplit e he with h | h | h
    · exact le_trans (hsteps e h) (Nat.le_succ n)
    · rcases hmemCE e h with rfl | rfl | rfl <;> exact le_refl _
    · rw [gasEvents_step args (n + 1) e h]
  · rw [List.append_assoc]
    refine LogsOK_append_silent _ _ hlogs ?_
    intro e he
    rcases List.mem_append.1 he with h | h
    · rcases hmemCE e h with rfl | rfl | rfl <;> rfl
    · exact gasEvents_not_log args (n + 1) e h
  · intro s v pa d pb sc hmem
    rcases hmemSplit _ hmem with h | h | h
    · exact hsd s v pa d pb sc h
    · rcases hmemCE _ h with h' | h' | h' <;> exact Event.noConfusion h'
    · rcases mem_gasEvents args (n + 1) _ h with h' | h' | h' | h' <;>
        exact Event.noConfusion h'
  · intro s v inf hmem
    rcases hmemSplit _ hmem with h | h | h
    · exact hev s v inf h
    · rcases hmemCE _ h with h' | h' | h' <;> exact Event.noConfusion h'
    · rcases mem_gasEvents args (n + 1) _ h with h' | h' | h' | h' <;>
        exact Event.noConfusion h'
  · intro s l hmem
    rcases hmemSplit _ hmem with h | h | h
    · obtain ⟨hl, hbk⟩ := hfb s l h
      exact ⟨hl, fun hnn' => List.mem_append_left _ (List.mem_append_left _ (hbk hnn'))⟩
    · rcases hmemCE _ h with h' | h' | h'
      · injection h' with h1 h2
        subst h1
        subst h2
        refine ⟨hL, fun _ => ?_⟩
        refine List.mem_append_left _ (List.mem_append_right _ ?_)
        rw [hCE]
        simp
      · exact Event.noConfusion h'
      · exact Event.noConfusion h'
    · rcases mem_gasEvents args (n + 1) _ h with h' | h' | h' | h' <;>
        exact Event.noConfusion h'
  · intro s l hmem hnn' hmod
    rcases hmemSplit _ hmem with h | h | h
    · obtain ⟨v, inf, hv⟩ := hfe s l h hnn' hmod
      exact Or.inl ⟨v, inf, List.mem_append_left _ (List.mem_append_left _ hv)⟩
    · rcases hmemCE _ h with h' | h' | h'
      · injection h' with h1 h2
        exact Or.inr h1
      · exact Event.noConfusion h'
      · exact Event.noConfusion h'
    · rcases mem_gasEvents args (n + 1) _ h with h' | h' | h' | h' <;>
        exact Event.noConfusion h'
  · intro s l hmem hnn'
    rcases hmemSplit _ hmem with h | h | h
    · have hsn : s ≤ n := hsteps _ h
      obtain ⟨hbl, habs⟩ := hgas s l h hnn'
      constructor
      · intro hmod
        obtain ⟨p, q, hpq⟩ := hbl hmod
        refine ⟨p, (q ++ CE) ++ gasEvents args (n + 1), ?_⟩
        rw [hpq]
        simp [List.append_assoc]
      · intro hmod
        obtain ⟨hc, ho, hs', hz⟩ := habs hmod
        have hnot : ∀ x : Event, eventStep x = s → x ∉ CE ∨ True := fun _ _ => Or.inr trivial
        refine ⟨fun c hmemc => ?_, fun hmemc => ?_, fun hmemc => ?_, fun hmemc => ?_⟩
        · rcases hmemSplit _ hmemc with h' | h' | h'
          · exact hc c h'
          · rcases hmemCE _ h' with h'' | h'' | h'' <;> exact Event.noConfusion h''
          · rcases mem_gasEvents args (n + 1) _ h' with h'' | h'' | h'' | h''
            · injection h'' with h3 h4
              omega
            · exact Event.noConfusion h''
            · exact Event.noConfusion h''
            · exact Event.noConfusion h''
        · rcases hmemSplit _ hmemc with h' | h' | h'
          · exact ho h'
          · rcases hmemCE _ h' with h'' | h'' | h'' <;> exact Event.noConfusion h''
          · rcases mem_gasEvents args (n + 1) _ h' with h'' | h'' | h'' | h''
            · exact Event.noConfusion h''
            · injection h'' with h3
              omega
            · exact Event.noConfusion h''
            · exact Event.noConfusion h''
        · rcases hmemSplit _ hmemc with h' | h' | h'
          · exact hs' h'
          · rcases hmemCE _ h' with h'' | h'' | h'' <;> exact Event.noConfusion h''
          · rcases mem_gasEvents args (n + 1) _ h' with h'' | h'' | h'' | h''
            · exact Event.noConfusion h''
            · exact Event.noConfusion h''
            · injection h'' with h3
              omega
            · exact Event.noConfusion h''
        · rcases hmemSplit _ hmemc with h' | h' | h'
          · exact hz h'
          · rcases hmemCE _ h' with h'' | h'' | h'' <;> exact Event.noConfusion h''
          · rcases mem_gasEvents args (n + 1) _ h' with h'' | h'' | h'' | h''
            · exact Event.noConfusion h''
            · exact Event.noConfusion h''
            · exact Event.noConfusion h''
            · injection h'' with h3
              omega
    · rcases hmemCE _ h with h' | h' | h'
      · injection h' with h1 h2
        subst h1
        constructor
        · intro hmod
          refine ⟨t ++ CE, [], ?_⟩
          rw [gasEvents, if_pos hmod]
        · intro hmod
          have hgase : gasEvents args (n + 1) = [] := by
            rw [gasEvents, if_neg hmod]
          refine ⟨fun c hmemc => ?_, fun hmemc => ?_, fun hmemc => ?_, fun hmemc => ?_⟩
          · rcases hmemSplit _ hmemc with h' | h' | h'
            · exact notMem_of_stepsLe t n _ hsteps (by simp [eventStep]) h'
            · rcases hmemCE _ h' with h'' | h'' | h'' <;> exact Event.noConfusion h''
            · rw [hgase] at h'
              exact absurd h' (List.not_mem_nil _)
          · rcases hmemSplit _ hmemc with h' | h' | h'
            · exact notMem_of_stepsLe t n _ hsteps (by simp [eventStep]) h'
            · rcases hmemCE _ h' with h'' | h'' | h'' <;> exact Event.noConfusion h''
            · rw [hgase] at h'
              exact absurd h' (List.not_mem_nil _)
          · rcases hmemSplit _ hmemc with h' | h' | h'
            · exact notMem_of_stepsLe t n _ hsteps (by simp [eventStep]) h'
            · rcases hmemCE _ h' with h'' | h'' | h'' <;> exact Event.noConfusion h''
            · rw [hgase] at h'
              exact absurd h' (List.not_mem_nil _)
          · rcases hmemSplit _ hmemc with h' | h' | h'
            · exact notMem_of_stepsLe t n _ hsteps (by simp [eventStep]) h'
            · rcases hmemCE _ h' with h'' | h'' | h'' <;> exact Event.noConfusion h''
            · rw [hgase] at h'
              exact absurd h' (List.not_mem_nil _)
      · exact Event.noConfusion h'
      · exact Event.noConfusion h'
    · rcases mem_gasEvents args (n + 1) _ h with h' | h' | h' | h' <;>
        exact Event.noConfusion h'
  · refine nanFree_append _ _ (nanFree_append _ _ hnf ?_) (gasEvents_nanFree args (n + 1))
    intro s' l' hmem
    rcases hmemCE _ hmem with h' | h' | h' <;> exact Event.noConfusion h'.symm
  · rw [lossBuf_append, lossBufA_gasEvents, lossBuf_append]
    rw [hCE]
    simp [lossBufA, bufStep_forwardE, bufStep_appendLoss, bufStep_backward]
  · rw [evalsOf_append, evalsOf_gasEvents, List.append_nil, evalsOf_append]
    have h2 : evalsOf CE = [] := by
      rw [hCE]
      simp [evalsOf, evStep_forwardE, evStep_appendLoss, evStep_backward]
    rw [h2, List.append_nil]
  · rw [savesOf_append, savesOf_gasEvents, List.append_nil, savesOf_append]
    have h2 : savesOf CE = [] := by
      rw [hCE]
      simp [savesOf, svStep_forwardE, svStep_appendLoss, svStep_backward]
    rw [h2, List.append_nil]

end ODQA

namespace ODQA

/-- Effect of the evaluation pair of events (the `inference` call and the
log line that resets the buffer) on all trace predicates. -/
theorem eval_exts (args : Args) (m : Model) (dev : DevData) (n v epoch : Nat)
    (t2 : List Event) (bufL : List EVal) (hbufL : bufL = lossBuf t2)
    (hsteps : StepsLeP (n + 1) t2) (hlogs : LogsOK t2) (hsd : SaveDictP args m t2)
    (hev : EvalsP args m dev t2) (hfb : FwdBaseP m t2)
    (hfe : FwdEvalExceptP args (n + 1) t2) (hgas : GasP args t2) (hnf : nanFree t2)
    (hmod : (n + 1) % args.eval_period = 0) :
    StepsLeP (n + 1) (t2 ++ [Event.evalE (n + 1) v (inference m v dev),
      Event.logTrain (n + 1) bufL (npMeanE bufL) (inference m v dev).score epoch])
    ∧ LogsOK (t2 ++ [Event.evalE (n + 1) v (inference m v dev),
      Event.logTrain (n + 1) bufL (npMeanE bufL) (inference m v dev).score epoch])
    ∧ SaveDictP args m (t2 ++ [Event.evalE (n + 1) v (inference m v dev),
      Event.logTrain (n + 1) bufL (npMeanE bufL) (inference m v dev).score epoch])
    ∧ EvalsP args m dev (t2 ++ [Event.evalE (n + 1) v (inference m v dev),
      Event.logTrain (n + 1) bufL (npMeanE bufL) (inference m v dev).score epoch])
    ∧ FwdBaseP m (t2 ++ [Event.evalE (n + 1) v (inference m v dev),
      Event.logTrain (n + 1) bufL (npMeanE bufL) (inference m v dev).score epoch])
    ∧ FwdEvalP args (t2 ++ [Event.evalE (n + 1) v (inference m v dev),
      Event.logTrain (n + 1) bufL (npMeanE bufL) (inference m v dev).score epoch])
    ∧ GasP args (t2 ++ [Event.evalE (n + 1) v (inference m v dev),
      Event.logTrain (n + 1) bufL (npMeanE bufL) (inference m v dev).score epoch])
    ∧ nanFree (t2 ++ [Event.evalE (n + 1) v (inference m v dev),
      Event.logTrain (n + 1) bufL (npMeanE bufL) (inference m v dev).score epoch])
    ∧ lossBuf (t2 ++ [Event.evalE (n + 1) v (inference m v dev),
      Event.logTrain (n + 1) bufL (npMeanE bufL) (inference m v dev).score epoch]) = []
    ∧ evalsOf (t2 ++ [Event.evalE (n + 1) v (inference m v dev),
      Event.logTrain (n + 1) bufL (npMeanE bufL) (inference m v dev).score epoch])
      = evalsOf t2 ++ [(n + 1, (inference m v dev).score)]
    ∧ savesOf (t2 ++ [Event.evalE (n + 1) v (inference m v dev),
      Event.logTrain (n + 1) bufL (npMeanE bufL) (inference m v dev).score epoch])
      = savesOf t2 := by
  set EE : List Event := [Event.evalE (n + 1) v (inference m v dev),
    Event.logTrain (n + 1) bufL (npMeanE bufL) (inference m v dev).score epoch] with hEE
  have hmemEE : ∀ e ∈ EE, e = Event.evalE (n + 1) v (inference m v dev) ∨
      e = Event.logTrain (n + 1) bufL (npMeanE bufL) (inference m v dev).score epoch := by
    intro e he
    rw [hEE] at he
    simpa using he
  refine ⟨?_, ?_, ?_, ?_, ?_, ?_, ?_, ?_, ?_, ?_, ?_⟩
  · intro e he
    rcases List.mem_append.1 he with h | h
    · exact hsteps e h
    · rcases hmemEE e h with rfl | rfl <;> exact le_refl _
  · have h1 : LogsOK (t2 ++ [Event.evalE (n + 1) v (inference m v dev)]) := by
      refine LogsOK_append _ _ hlogs (Or.inl ?_)
      intro s b mn sc ep heq
      exact Event.noConfusion heq
    have h2 : lossBuf (t2 ++ [Event.evalE (n + 1) v (inference m v dev)]) = lossBuf t2 := by
      rw [lossBuf_append]
      simp [lossBufA, bufStep_evalE]
    have h3 := LogsOK_append (t2 ++ [Event.evalE (n + 1) v (inference m v dev)])
      (Event.logTrain (n + 1) bufL (npMeanE bufL) (inference m v dev).score epoch) h1
      (Or.inr ⟨n + 1, (inference m v dev).score, epoch, by rw [h2, ← hbufL]⟩)
    rw [hEE]
    have h4 : t2 ++ [Event.evalE (n + 1) v (inference m v dev),
        Event.logTrain (n + 1) bufL (npMeanE bufL) (inference m v dev).score epoch]
        = (t2 ++ [Event.evalE (n + 1) v (inference m v dev)]) ++
          [Event.logTrain (n + 1) bufL (npMeanE bufL) (inference m v dev).score epoch] := by
      simp
    rw [h4]
    exact h3
  · intro s v' pa d pb sc hmem
    rcases List.mem_append.1 hmem with h | h
    · exact hsd s v' pa d pb sc h
    · rcases hmemEE _ h with h' | h' <;> exact Event.noConfusion h'
  · intro s v' inf hmem
    rcases List.mem_append.1 hmem with h | h
    · exact hev s v' inf h
    · rcases hmemEE _ h with h' | h'
      · injection h' with h1 h2 h3
        subst h1
        subst h2
        subst h3
        exact ⟨hmod, rfl⟩
      · exact Event.noConfusion h'
  · intro s l hmem
    rcases List.mem_append.1 hmem with h | h
    · obtain ⟨hl, hbk⟩ := hfb s l h
      exact ⟨hl, fun hnn' => List.mem_append_left _ (hbk hnn')⟩
    · rcases hmemEE _ h with h' | h' <;> exact Event.noConfusion h'
  · intro s l hmem hnn' hmod'
    rcases List.mem_append.1 hmem with h | h
    · rcases hfe s l h hnn' hmod' with ⟨v', inf, hv⟩ | rfl
      · exact ⟨v', inf, List.mem_append_left _ hv⟩
      · refine ⟨v, inference m v dev, List.mem_append_right _ ?_⟩
        rw [hEE]
        simp
    · rcases hmemEE _ h with h' | h' <;> exact Event.noConfusion h'
  · intro s l hmem hnn'
    rcases List.mem_append.1 hmem with h | h
    · obtain ⟨hbl, habs⟩ := hgas s l h hnn'
      constructor
      · intro hmod'
        obtain ⟨p, q, hpq⟩ := hbl hmod'
        refine ⟨p, q ++ EE, ?_⟩
        rw [hpq]
        simp [List.append_assoc]
      · intro hmod'
        obtain ⟨hc, ho, hs', hz⟩ := habs hmod'
        refine ⟨fun c hmemc => ?_, fun hmemc => ?_, fun hmemc => ?_, fun hmemc => ?_⟩
        · rcases List.mem_append.1 hmemc with h' | h'
          · exact hc c h'
          · rcases hmemEE _ h' with h'' | h'' <;> exact Event.noConfusion h''
        · rcases List.mem_append.1 hmemc with h' | h'
          · exact ho h'
          · rcases hmemEE _ h' with h'' | h'' <;> exact Event.noConfusion h''
        · rcases List.mem_append.1 hmemc with h' | h'
          · exact hs' h'
          · rcases hmemEE _ h' with h'' | h'' <;> exact Event.noConfusion h''
        · rcases List.mem_append.1 hmemc with h' | h'
          · exact hz h'
          · rcases hmemEE _ h' with h'' | h'' <;> exact Event.noConfusion h''
    · rcases hmemEE _ h with h' | h' <;> exact Event.noConfusion h'
  · refine nanFree_append _ _ hnf ?_
    intro s' l' hmem
    rcases hmemEE _ hmem with h' | h' <;> exact Event.noConfusion h'.symm
  · rw [lossBuf_append]
    rw [hEE]
    simp [lossBufA, bufStep_evalE, bufStep_logTrain]
  · rw [evalsOf_append]
    have h2 : evalsOf EE = [(n + 1, (inference m v dev).score)] := by
      rw [hEE]
      simp [evalsOf, evStep_evalE, evStep_logTrain]
    rw [h2]
  · rw [savesOf_append]
    have h2 : savesOf EE = [] := by
      rw [hEE]
      simp [savesOf, svStep_evalE, svStep_logTrain]
    rw [h2, List.append_nil]

end ODQA

namespace ODQA

/-- Effect of the checkpoint-save event on all trace predicates. -/
theorem save_exts (args : Args) (m : Model) (dev : DevData) (sn v : Nat)
    (t3 : List Event) (d : List (String × Tensor)) (pb sc : EVal)
    (hd : d = (m.stateDictAt v).map (fun kv => (kv.1, kv.2.cpu)))
    (himp : pb.elt sc = true)
    (hsteps : StepsLeP sn t3) (hsn : eventStep (Event.saveModel sn v
      (osPathJoin args.output_dir "best-model.pt") d pb sc) ≤ sn)
    (hlogs : LogsOK t3) (hsd : SaveDictP args m t3)
    (hev : EvalsP args m dev t3) (hfb : FwdBaseP m t3) (hfe : FwdEvalP args t3)
    (hgas : GasP args t3) (hnf : nanFree t3) :
    StepsLeP sn (t3 ++ [Event.saveModel sn v
      (osPathJoin args.output_dir "best-model.pt") d pb sc])
    ∧ LogsOK (t3 ++ [Event.saveModel sn v
      (osPathJoin args.output_dir "best-model.pt") d pb sc])
    ∧ SaveDictP args m (t3 ++ [Event.saveModel sn v
      (osPathJoin args.output_dir "best-model.pt") d pb sc])
    ∧ EvalsP args m dev (t3 ++ [Event.saveModel sn v
      (osPathJoin args.output_dir "best-model.pt") d pb sc])
    ∧ FwdBaseP m (t3 ++ [Event.saveModel sn v
      (osPathJoin args.output_dir "best-model.pt") d pb sc])
    ∧ FwdEvalP args (t3 ++ [Event.saveModel sn v
      (osPathJoin args.output_dir "best-model.pt") d pb sc])
    ∧ GasP args (t3 ++ [Event.saveModel sn v
      (osPathJoin args.output_dir "best-model.pt") d pb sc])
    ∧ nanFree (t3 ++ [Event.saveModel sn v
      (osPathJoin args.output_dir "best-model.pt") d pb sc])
    ∧ lossBuf (t3 ++ [Event.saveModel sn v
      (osPathJoin args.output_dir "best-model.pt") d pb sc]) = lossBuf t3
    ∧ evalsOf (t3 ++ [Event.saveModel sn v
      (osPathJoin args.output_dir "best-model.pt") d pb sc]) = evalsOf t3
    ∧ savesOf (t3 ++ [Event.saveModel sn v
      (osPathJoin args.output_dir "best-model.pt") d pb sc])
      = savesOf t3 ++ [(sn, sc)] := by
  set SE : Event := Event.saveModel sn v
    (osPathJoin args.output_dir "best-model.pt") d pb sc with hSE
  have hmemSE : ∀ e ∈ [SE], e = SE := by
    intro e he
    simpa using he
  refine ⟨?_, ?_, ?_, ?_, ?_, ?_, ?_, ?_, ?_, ?_, ?_⟩
  · intro e he
    rcases List.mem_append.1 he with h | h
    · exact hsteps e h
    · rw [hmemSE e h, hSE]
      exact hsn
  · refine LogsOK_append _ _ hlogs (Or.inl ?_)
    intro s b mn sc' ep heq
    rw [hSE] at heq
    exact Event.noConfusion heq
  · intro s v' pa d' pb' sc' hmem
    rcases List.mem_append.1 hmem with h | h
    · exact hsd s v' pa d' pb' sc' h
    · have := hmemSE _ h
      rw [hSE] at this
      injection this with h1 h2 h3 h4 h5 h6
      subst h2
      exact ⟨h3, by rw [h4, hd], by rw [h5, h6]; exact himp⟩
  · intro s v' inf hmem
    rcases List.mem_append.1 hmem with h | h
    · exact hev s v' inf h
    · have := hmemSE _ h
      rw [hSE] at this
      exact Event.noConfusion this
  · intro s l hmem
    rcases List.mem_append.1 hmem with h | h
    · obtain ⟨hl, hbk⟩ := hfb s l h
      exact ⟨hl, fun hnn' => List.mem_append_left _ (hbk hnn')⟩
    · have := hmemSE _ h
      rw [hSE] at this
      exact Event.noConfusion this
  · intro s l hmem hnn' hmod'
    rcases List.mem_append.1 hmem with h | h
    · obtain ⟨v', inf, hv⟩ := hfe s l h hnn' hmod'
      exact ⟨v', inf, List.mem_append_left _ hv⟩
    · have := hmemSE _ h
      rw [hSE] at this
      exact Event.noConfusion this
  · intro s l hmem hnn'
    rcases List.mem_append.1 hmem with h | h
    · obtain ⟨hbl, habs⟩ := hgas s l h hnn'
      constructor
      · intro hmod'
        obtain ⟨p, q, hpq⟩ := hbl hmod'
        refine ⟨p, q ++ [SE], ?_⟩
        rw [hpq]
        simp [List.append_assoc]
      · intro hmod'
        obtain ⟨hc, ho, hs', hz⟩ := habs hmod'
        refine ⟨fun c hmemc => ?_, fun hmemc => ?_, fun hmemc => ?_, fun hmemc => ?_⟩
        · rcases List.mem_append.1 hmemc with h' | h'
          · exact hc c h'
          · have := hmemSE _ h'
            rw [hSE] at this
            exact Event.noConfusion this
        · rcases List.mem_append.1 hmemc with h' | h'
          · exact ho h'
          · have := hmemSE _ h'
            rw [hSE] at this
            exact Event.noConfusion this
        · rcases List.mem_append.1 hmemc with h' | h'
          · exact hs' h'
          · have := hmemSE _ h'
            rw [hSE] at this
            exact Event.noConfusion this
        · rcases List.mem_append.1 hmemc with h' | h'
          · exact hz h'
          · have := hmemSE _ h'
            rw [hSE] at this
            exact Event.noConfusion this
    · have := hmemSE _ h
      rw [hSE] at this
      exact Event.noConfusion this
  · refine nanFree_append _ _ hnf ?_
    intro s' l' hmem
    have := hmemSE _ hmem
    rw [hSE] at this
    exact Event.noConfusion this.symm
  · rw [lossBuf_append, hSE]
    simp [lossBufA, bufStep_saveModel]
  · rw [evalsOf_append, hSE]
    have h2 : evalsOf [Event.saveModel sn v
        (osPathJoin args.output_dir "best-model.pt") d pb sc] = [] := by
      simp [evalsOf, evStep_saveModel]
    rw [h2, List.append_nil]
  · rw [savesOf_append, hSE]
    have h2 : savesOf [Event.saveModel sn v
        (osPathJoin args.output_dir "best-model.pt") d pb sc] = [(sn, sc)] := by
      simp [savesOf, svStep_saveModel]
    rw [h2]

/-- On a non-NaN, non-evaluation batch the invariant is preserved. -/
theorem Inv_coreState (args : Args) (m : Model) (dev : DevData) (st : TrainState)
    (hInv : Inv args m dev st) (hnf : nanFree st.trace)
    (hnn : (m.lossOf (st.global_step + 1)).isnan = false)
    (hnoev : ¬ (st.global_step + 1) % args.eval_period = 0) :
    Inv args m dev (coreState args m st) ∧ nanFree (coreState args m st).trace := by
  obtain ⟨hsteps, hlogs, hsd, hev, hfb, hfe, hgas, hnf', hbuf, hevals, hsaves⟩ :=
    core_exts args m dev st.global_step st.trace hnn hInv.stepsLe hInv.logs
      hInv.saveDict hInv.evals hInv.fwd hInv.fwdEval hInv.gas hnf
  have htr : (coreState args m st).trace = (st.trace ++
      [Event.forwardE (st.global_step + 1) (m.lossOf (st.global_step + 1)),
       Event.appendLoss (st.global_step + 1) (m.lossOf (st.global_step + 1)),
       Event.backward (st.global_step + 1)]) ++
      gasEvents args (st.global_step + 1) := rfl
  have hscores : scoresOf ((coreState args m st).trace) = scoresOf st.trace := by
    rw [scoresOf, htr, hevals]
    rfl
  refine ⟨?_, ?_⟩
  · refine { stepsLe := ?_, buf := ?_, bw := ?_, logs := ?_, saves := ?_,
             saveDict := ?_, evals := ?_, fwd := ?_, fwdEval := ?_, gas := ?_,
             waitSome := ?_, firstEval := ?_, stopWait := ?_ }
    · rw [htr]
      exact hsteps
    · show st.train_losses ++ [m.lossOf (st.global_step + 1)] = _
      rw [htr, hbuf, hInv.buf]
    · show (st.best_accuracy, st.wait_step) = _
      rw [hscores]
      exact hInv.bw
    · rw [htr]
      exact hlogs
    · show savesOf ((coreState args m st).trace) = _
      rw [htr, hsaves, hevals]
      exact hInv.saves
    · rw [htr]
      exact hsd
    · rw [htr]
      exact hev
    · rw [htr]
      exact hfb
    · rw [htr]
      intro s l hmem hnn' hmod
      rcases hfe s l hmem hnn' hmod with h | rfl
      · exact h
      · exact absurd hmod hnoev
    · rw [htr]
      exact hgas
    · intro hne
      rw [htr, hevals] at hne
      exact hInv.waitSome hne
    · intro sc rest hsc
      rw [hscores] at hsc
      exact hInv.firstEval sc rest hsc
    · intro hstop
      exact hInv.stopWait hstop
  · rw [htr]
    exact hnf'

end ODQA

namespace ODQA

/-- Common setup for the evaluation leaves: all predicate components hold at
the `evalState` trace, together with its projection values. -/
theorem evalState_exts (args : Args) (m : Model) (dev : DevData) (epoch : Nat)
    (st : TrainState) (hInv : Inv args m dev st) (hnf : nanFree st.trace)
    (hnn : (m.lossOf (st.global_step + 1)).isnan = false)
    (hevmod : (st.global_step + 1) % args.eval_period = 0) :
    StepsLeP (st.global_step + 1) ((evalState args m dev epoch st).trace)
    ∧ LogsOK ((evalState args m dev epoch st).trace)
    ∧ SaveDictP args m ((evalState args m dev epoch st).trace)
    ∧ EvalsP args m dev ((evalState args m dev epoch st).trace)
    ∧ FwdBaseP m ((evalState args m dev epoch st).trace)
    ∧ FwdEvalP args ((evalState args m dev epoch st).trace)
    ∧ GasP args ((evalState args m dev epoch st).trace)
    ∧ nanFree ((evalState args m dev epoch st).trace)
    ∧ lossBuf ((evalState args m dev epoch st).trace) = []
    ∧ evalsOf ((evalState args m dev epoch st).trace) = evalsOf st.trace ++
        [(st.global_step + 1,
          (inference m ((coreState args m st).version) dev).score)]
    ∧ savesOf ((evalState args m dev epoch st).trace) = savesOf st.trace := by
  obtain ⟨hsteps, hlogs, hsd, hev, hfb, hfe, hgas, hnf', hbuf, hevals, hsaves⟩ :=
    core_exts args m dev st.global_step st.trace hnn hInv.stepsLe hInv.logs
      hInv.saveDict hInv.evals hInv.fwd hInv.fwdEval hInv.gas hnf
  have hbufL : st.train_losses ++ [m.lossOf (st.global_step + 1)]
      = lossBuf ((coreState args m st).trace) := by
    show _ = lossBuf ((st.trace ++ _) ++ gasEvents args (st.global_step + 1))
    rw [hbuf, hInv.buf]
  obtain ⟨esteps, elogs, esd, eev, efb, efe, egas, enf, ebuf, eevals, esaves⟩ :=
    eval_exts args m dev st.global_step ((coreState args m st).version) epoch
      ((coreState args m st).trace)
      (st.train_losses ++ [m.lossOf (st.global_step + 1)]) hbufL
      hsteps hlogs hsd hev hfb hfe hgas hnf' hevmod
  have htr2 : (evalState args m dev epoch st).trace =
      (coreState args m st).trace ++
      [Event.evalE (st.global_step + 1) ((coreState args m st).version)
        (inference m ((coreState args m st).version) dev),
       Event.logTrain (st.global_step + 1)
        (st.train_losses ++ [m.lossOf (st.global_step + 1)])
        (npMeanE (st.train_losses ++ [m.lossOf (st.global_step + 1)]))
        (inference m ((coreState args m st).version) dev).score epoch] := rfl
  have htr3 : (coreState args m st).trace = (st.trace ++
      [Event.forwardE (st.global_step + 1) (m.lossOf (st.global_step + 1)),
       Event.appendLoss (st.global_step + 1) (m.lossOf (st.global_step + 1)),
       Event.backward (st.global_step + 1)]) ++
      gasEvents args (st.global_step + 1) := rfl
  exact ⟨esteps, elogs, esd, eev, efb, efe, egas, enf, ebuf,
    by rw [htr2, eevals, htr3, hevals], by rw [htr2, esaves, htr3, hsaves]⟩

/-- On an improving evaluation the invariant is preserved at the
checkpoint-saving state. -/
theorem Inv_saveState (args : Args) (m : Model) (dev : DevData) (epoch : Nat)
    (st : TrainState) (hInv : Inv args m dev st) (hnf : nanFree st.trace)
    (hnn : (m.lossOf (st.global_step + 1)).isnan = false)
    (hevmod : (st.global_step + 1) % args.eval_period = 0)
    (himp : st.best_accuracy.elt
      ((inference m ((coreState args m st).version) dev).score) = true) :
    Inv args m dev (saveState args m dev epoch st)
    ∧ nanFree ((saveState args m dev epoch st).trace) := by
  obtain ⟨esteps, elogs, esd, eev, efb, efe, egas, enf, ebuf, eevals, esaves⟩ :=
    evalState_exts args m dev epoch st hInv hnf hnn hevmod
  obtain ⟨ssteps, slogs, ssd, sev, sfb, sfe, sgas, snf, sbuf, sevals, ssaves⟩ :=
    save_exts args m dev (st.global_step + 1) ((coreState args m st).version)
      ((evalState args m dev epoch st).trace)
      ((m.stateDictAt ((coreState args m st).version)).map (fun kv => (kv.1, kv.2.cpu)))
      st.best_accuracy
      ((inference m ((coreState args m st).version) dev).score)
      rfl himp esteps (le_refl _) elogs esd eev efb efe egas enf
  have htr : (saveState args m dev epoch st).trace =
      (evalState args m dev epoch st).trace ++
      [Event.saveModel (st.global_step + 1) ((coreState args m st).version)
        (osPathJoin args.output_dir "best-model.pt")
        ((m.stateDictAt ((coreState args m st).version)).map (fun kv => (kv.1, kv.2.cpu)))
        st.best_accuracy
        ((inference m ((coreState args m st).version) dev).score)] := rfl
  have hscorest : scoresOf ((saveState args m dev epoch st).trace)
      = scoresOf st.trace ++
        [(inference m ((coreState args m st).version) dev).score] := by
    rw [scoresOf, htr, sevals, eevals]
    simp [scoresOf]
  refine ⟨?_, by rw [htr]; exact snf⟩
  refine { stepsLe := ?_, buf := ?_, bw := ?_, logs := ?_, saves := ?_,
           saveDict := ?_, evals := ?_, fwd := ?_, fwdEval := ?_, gas := ?_,
           waitSome := ?_, firstEval := ?_, stopWait := ?_ }
  · rw [htr]
    exact ssteps
  · show ([] : List EVal) = _
    rw [htr, sbuf, ebuf]
  · show ((inference m ((coreState args m st).version) dev).score, some 0) = _
    rw [hscorest, bwFold_append, ← hInv.bw, bwStep, if_pos himp]
  · rw [htr]
    exact slogs
  · show savesOf ((saveState args m dev epoch st).trace) = _
    rw [htr, ssaves, esaves]
    rw [sevals, eevals]
    rw [savesSpecA_append, hInv.saves]
    have hfold : foldBest (EVal.num (-1)) ((evalsOf st.trace).map Prod.snd)
        = st.best_accuracy := by
      rw [← bwFold_fst]
      rw [show (evalsOf st.trace).map Prod.snd = scoresOf st.trace from rfl]
      rw [← hInv.bw]
    rw [hfold, if_pos himp]
  · rw [htr]
    exact ssd
  · rw [htr]
    exact sev
  · rw [htr]
    exact sfb
  · rw [htr]
    exact sfe
  · rw [htr]
    exact sgas
  · intro _
    exact ⟨0, rfl⟩
  · intro sc rest hsc
    rw [hscorest] at hsc
    rcases hscore : scoresOf st.trace with _ | ⟨s0, olds⟩
    · rw [hscore] at hsc
      simp at hsc
      obtain ⟨hsc1, -⟩ := hsc
      have hbest : st.best_accuracy = EVal.num (-1) := by
        have := hInv.bw
        rw [hscore] at this
        have h2 : (st.best_accuracy, st.wait_step) = (EVal.num (-1), none) := this
        exact congrArg Prod.fst h2
      rw [← hsc1, ← hbest]
      exact himp
    · rw [hscore] at hsc
      rw [List.cons_append] at hsc
      injection hsc with h1 h2
      subst h1
      exact hInv.firstEval s0 olds hscore
  · intro _
    exact Or.inr (Or.inl rfl)

end ODQA

namespace ODQA

/-- On a non-improving evaluation with a bound wait counter the invariant is
preserved at the incremented-counter state. -/
theorem Inv_waitState (args : Args) (m : Model) (dev : DevData) (epoch : Nat)
    (st : TrainState) (w : Nat) (stop : Bool)
    (hInv : Inv args m dev st) (hnf : nanFree st.trace)
    (hnn : (m.lossOf (st.global_step + 1)).isnan = false)
    (hevmod : (st.global_step + 1) % args.eval_period = 0)
    (hnimp : ¬ st.best_accuracy.elt
      ((inference m ((coreState args m st).version) dev).score) = true)
    (hw : st.wait_step = some w)
    (hsw : stop = false → ¬ args.wait_step ≤ w + 1) :
    Inv args m dev (waitState args m dev epoch st w stop)
    ∧ nanFree ((waitState args m dev epoch st w stop).trace) := by
  obtain ⟨esteps, elogs, esd, eev, efb, efe, egas, enf, ebuf, eevals, esaves⟩ :=
    evalState_exts args m dev epoch st hInv hnf hnn hevmod
  have htr : (waitState args m dev epoch st w stop).trace
      = (evalState args m dev epoch st).trace := rfl
  have hscorest : scoresOf ((waitState args m dev epoch st w stop).trace)
      = scoresOf st.trace ++
        [(inference m ((coreState args m st).version) dev).score] := by
    rw [scoresOf, htr, eevals]
    simp [scoresOf]
  have holdne : scoresOf st.trace ≠ [] := by
    intro hempty
    have hbw := hInv.bw
    rw [hempty] at hbw
    have h2 : (st.best_accuracy, st.wait_step) = (EVal.num (-1), none) := hbw
    have h3 : st.wait_step = none := congrArg Prod.snd h2
    rw [hw] at h3
    exact Option.noConfusion h3
  refine ⟨?_, by rw [htr]; exact enf⟩
  refine { stepsLe := ?_, buf := ?_, bw := ?_, logs := ?_, saves := ?_,
           saveDict := ?_, evals := ?_, fwd := ?_, fwdEval := ?_, gas := ?_,
           waitSome := ?_, firstEval := ?_, stopWait := ?_ }
  · rw [htr]
    exact esteps
  · show ([] : List EVal) = _
    rw [htr, ebuf]
  · show (st.best_accuracy, some (w + 1)) = _
    rw [hscorest, bwFold_append, ← hInv.bw, bwStep, if_neg hnimp, hw]
    rfl
  · rw [htr]
    exact elogs
  · show savesOf ((waitState args m dev epoch st w stop).trace) = _
    rw [htr, esaves, eevals]
    rw [savesSpecA_append, hInv.saves]
    have hfold : foldBest (EVal.num (-1)) ((evalsOf st.trace).map Prod.snd)
        = st.best_accuracy := by
      rw [← bwFold_fst]
      rw [show (evalsOf st.trace).map Prod.snd = scoresOf st.trace from rfl]
      rw [← hInv.bw]
    rw [hfold, if_neg hnimp, List.append_nil]
  · rw [htr]
    exact esd
  · rw [htr]
    exact eev
  · rw [htr]
    exact efb
  · rw [htr]
    exact efe
  · rw [htr]
    exact egas
  · intro _
    exact ⟨w + 1, rfl⟩
  · intro sc rest hsc
    rw [hscorest] at hsc
    rcases hscore : scoresOf st.trace with _ | ⟨s0, olds⟩
    · exact absurd hscore holdne
    · rw [hscore] at hsc
      rw [List.cons_append] at hsc
      injection hsc with h1 h2
      subst h1
      exact hInv.firstEval s0 olds hscore
  · intro hstop
    have h2 : stop = false := hstop
    have h3 := hsw h2
    exact Or.inr (Or.inr ⟨w + 1, rfl, by omega⟩)

/-- A non-improving first evaluation raises the unbound-local exception with
exactly one (NaN-dominated or otherwise non-improving) score on record. -/
theorem errSpec_evalState (args : Args) (m : Model) (dev : DevData) (epoch : Nat)
    (st : TrainState) (hInv : Inv args m dev st) (hnf : nanFree st.trace)
    (hnn : (m.lossOf (st.global_step + 1)).isnan = false)
    (hevmod : (st.global_step + 1) % args.eval_period = 0)
    (hnimp : ¬ st.best_accuracy.elt
      ((inference m ((coreState args m st).version) dev).score) = true)
    (hw : st.wait_step = none) :
    ErrSpec (Err.unboundLocal "wait_step" (evalState args m dev epoch st)) := by
  obtain ⟨esteps, elogs, esd, eev, efb, efe, egas, enf, ebuf, eevals, esaves⟩ :=
    evalState_exts args m dev epoch st hInv hnf hnn hevmod
  have hempty : evalsOf st.trace = [] := by
    by_contra hne
    obtain ⟨w', hw'⟩ := hInv.waitSome hne
    rw [hw] at hw'
    exact Option.noConfusion hw'
  have hbest : st.best_accuracy = EVal.num (-1) := by
    have hbw := hInv.bw
    rw [show scoresOf st.trace = [] by rw [scoresOf, hempty]; rfl] at hbw
    exact congrArg Prod.fst hbw
  refine ⟨evalState args m dev epoch st, rfl, hw, enf,
    (inference m ((coreState args m st).version) dev).score, ?_, ?_⟩
  · rw [scoresOf, eevals, hempty]
    rfl
  · rw [← hbest]
    cases hb : st.best_accuracy.elt
        ((inference m ((coreState args m st).version) dev).score) with
    | false => rfl
    | true => exact absurd hb hnimp

end ODQA

namespace ODQA

/-- What a successful batch step guarantees: the invariant is preserved, a
non-breaking step keeps the loop healthy, and a break is either the NaN halt
or the patience halt. -/
theorem runBatchC_ok (args : Args) (m : Model) (dev : DevData) (epoch : Nat)
    (st st' : TrainState) (brk : Bool)
    (hInv : Inv args m dev st) (hnf : nanFree st.trace)
    (hstop : st.stop_training = false)
    (hok : runBatchC args m dev epoch st = Except.ok (st', brk)) :
    Inv args m dev st'
    ∧ (brk = false → st'.stop_training = false ∧ nanFree st'.trace)
    ∧ (brk = true → NanEnd m st' ∨ PatienceEnd args st') := by
  unfold runBatchC at hok
  by_cases h1 : (m.lossOf (st.global_step + 1)).isnan = true
  · rw [if_pos h1] at hok
    injection hok with h2
    injection h2 with h3 h4
    subst h3
    subst h4
    refine ⟨Inv_nanState args m dev st hInv h1, ?_, ?_⟩
    · intro h
      exact absurd h (by simp)
    · intro _
      exact Or.inl (NanEnd_nanState args m dev st hInv hnf h1)
  · rw [if_neg h1] at hok
    have hnn : (m.lossOf (st.global_step + 1)).isnan = false := by
      simpa using h1
    by_cases h3 : (st.global_step + 1) % args.eval_period = 0
    · rw [if_pos h3] at hok
      by_cases h4 : st.best_accuracy.elt
          ((inference m ((coreState args m st).version) dev).score) = true
      · rw [if_pos h4] at hok
        injection hok with h5
        injection h5 with h6 h7
        subst h6
        subst h7
        obtain ⟨hi, hn⟩ := Inv_saveState args m dev epoch st hInv hnf hnn h3 h4
        refine ⟨hi, fun _ => ⟨rfl, hn⟩, ?_⟩
        intro h
        exact absurd h (by simp)
      · rw [if_neg h4] at hok
        cases hw : st.wait_step with
        | none =>
          rw [hw] at hok
          exact absurd hok (by simp)
        | some w =>
          rw [hw] at hok
          dsimp only [] at hok
          by_cases h5 : args.wait_step ≤ w + 1
          · rw [if_pos h5] at hok
            injection hok with h6
            injection h6 with h7 h8
            subst h7
            subst h8
            obtain ⟨hi, hn⟩ := Inv_waitState args m dev epoch st w true hInv hnf
              hnn h3 h4 hw (fun hc => absurd hc (by simp))
            refine ⟨hi, ?_, ?_⟩
            · intro h
              exact absurd h (by simp)
            · intro _
              exact Or.inr ⟨rfl, hn, w + 1, rfl, h5⟩
          · rw [if_neg h5] at hok
            injection hok with h6
            injection h6 with h7 h8
            subst h7
            subst h8
            obtain ⟨hi, hn⟩ := Inv_waitState args m dev epoch st w
              st.stop_training hInv hnf hnn h3 h4 hw (fun _ => h5)
            refine ⟨hi, fun _ => ⟨hstop, hn⟩, ?_⟩
            intro h
            exact absurd h (by simp)
    · rw [if_neg h3] at hok
      injection hok with h5
      injection h5 with h6 h7
      subst h6
      subst h7
      obtain ⟨hi, hn⟩ := Inv_coreState args m dev st hInv hnf hnn h3
      refine ⟨hi, fun _ => ⟨hstop, hn⟩, ?_⟩
      intro h
      exact absurd h (by simp)

/-- What a raised exception from a batch step looks like. -/
theorem runBatchC_err (args : Args) (m : Model) (dev : DevData) (epoch : Nat)
    (st : TrainState) (e : Err)
    (hInv : Inv args m dev st) (hnf : nanFree st.trace)
    (herr : runBatchC args m dev epoch st = Except.error e) : ErrSpec e := by
  unfold runBatchC at herr
  by_cases h1 : (m.lossOf (st.global_step + 1)).isnan = true
  · rw [if_pos h1] at herr
    exact absurd herr (by simp)
  · rw [if_neg h1] at herr
    have hnn : (m.lossOf (st.global_step + 1)).isnan = false := by
      simpa using h1
    by_cases h3 : (st.global_step + 1) % args.eval_period = 0
    · rw [if_pos h3] at herr
      by_cases h4 : st.best_accuracy.elt
          ((inference m ((coreState args m st).version) dev).score) = true
      · rw [if_pos h4] at herr
        exact absurd herr (by simp)
      · rw [if_neg h4] at herr
        cases hw : st.wait_step with
        | none =>
          rw [hw] at herr
          dsimp only [] at herr
          injection herr with h5
          subst h5
          exact errSpec_evalState args m dev epoch st hInv hnf hnn h3 h4 hw
        | some w =>
          rw [hw] at herr
          dsimp only [] at herr
          by_cases h5 : args.wait_step ≤ w + 1
          · rw [if_pos h5] at herr
            exact absurd herr (by simp)
          · rw [if_neg h5] at herr
            exact absurd herr (by simp)
    · rw [if_neg h3] at herr
      exact absurd herr (by simp)

end ODQA

namespace ODQA

/-- The batch loop preserves the invariant and can only end healthy, by the
NaN halt, or by the patience halt; exceptions satisfy `ErrSpec`. -/
theorem runBatches_spec (args : Args) (m : Model) (dev : DevData) (epoch : Nat) :
    ∀ (n : Nat) (st : TrainState), Inv args m dev st → nanFree st.trace →
    st.stop_training = false →
    (∀ st', runBatches args m dev epoch n st = Except.ok st' →
      Inv args m dev st' ∧ ((st'.stop_training = false ∧ nanFree st'.trace)
        ∨ NanEnd m st' ∨ PatienceEnd args st'))
    ∧ (∀ e, runBatches args m dev epoch n st = Except.error e → ErrSpec e) := by
  intro n
  induction n with
  | zero =>
    intro st hInv hnf hstop
    constructor
    · intro st' hok
      injection hok with h
      subst h
      exact ⟨hInv, Or.inl ⟨hstop, hnf⟩⟩
    · intro e herr
      exact absurd herr (by simp [runBatches])
  | succ n ih =>
    intro st hInv hnf hstop
    constructor
    · intro st' hok
      unfold runBatches at hok
      rw [runBatch_eq_runBatchC] at hok
      cases hrb : runBatchC args m dev epoch st with
      | error e =>
        rw [hrb] at hok
        exact absurd hok (by simp)
      | ok p =>
        obtain ⟨st1, brk⟩ := p
        rw [hrb] at hok
        dsimp only [] at hok
        obtain ⟨hi1, hbf, hbt⟩ := runBatchC_ok args m dev epoch st st1 brk
          hInv hnf hstop hrb
        cases brk with
        | true =>
          rw [if_pos rfl] at hok
          injection hok with h
          subst h
          exact ⟨hi1, Or.inr (hbt rfl)⟩
        | false =>
          rw [if_neg (by simp)] at hok
          obtain ⟨hs1, hn1⟩ := hbf rfl
          exact (ih st1 hi1 hn1 hs1).1 st' hok
    · intro e herr
      unfold runBatches at herr
      rw [runBatch_eq_runBatchC] at herr
      cases hrb : runBatchC args m dev epoch st with
      | error e' =>
        rw [hrb] at herr
        injection herr with h
        subst h
        exact runBatchC_err args m dev epoch st _ hInv hnf hrb
      | ok p =>
        obtain ⟨st1, brk⟩ := p
        rw [hrb] at herr
        dsimp only [] at herr
        obtain ⟨hi1, hbf, hbt⟩ := runBatchC_ok args m dev epoch st st1 brk
          hInv hnf hstop hrb
        cases brk with
        | true =>
          rw [if_pos rfl] at herr
          exact absurd herr (by simp)
        | false =>
          rw [if_neg (by simp)] at herr
          obtain ⟨hs1, hn1⟩ := hbf rfl
          exact (ih st1 hi1 hn1 hs1).2 e herr

/-- The epoch loop preserves the invariant; same end-state taxonomy. -/
theorem runEpochs_spec (args : Args) (m : Model) (dev : DevData) (trainN : Nat) :
    ∀ (rem epoch : Nat) (st : TrainState), Inv args m dev st → nanFree st.trace →
    st.stop_training = false →
    (∀ st', runEpochs args m dev trainN epoch rem st = Except.ok st' →
      Inv args m dev st' ∧ ((st'.stop_training = false ∧ nanFree st'.trace)
        ∨ NanEnd m st' ∨ PatienceEnd args st'))
    ∧ (∀ e, runEpochs args m dev trainN epoch rem st = Except.error e → ErrSpec e) := by
  intro rem
  induction rem with
  | zero =>
    intro epoch st hInv hnf hstop
    constructor
    · intro st' hok
      injection hok with h
      subst h
      exact ⟨hInv, Or.inl ⟨hstop, hnf⟩⟩
    · intro e herr
      exact absurd herr (by simp [runEpochs])
  | succ rem ih =>
    intro epoch st hInv hnf hstop
    constructor
    · intro st' hok
      unfold runEpochs at hok
      cases hrb : runBatches args m dev epoch trainN st with
      | error e =>
        rw [hrb] at hok
        exact absurd hok (by simp)
      | ok st1 =>
        rw [hrb] at hok
        dsimp only [] at hok
        obtain ⟨hi1, hend⟩ := (runBatches_spec args m dev epoch trainN st
          hInv hnf hstop).1 st1 hrb
        cases hst : st1.stop_training with
        | true =>
          rw [if_pos hst] at hok
          injection hok with h
          subst h
          rcases hend with ⟨hA, -⟩ | hB | hC
          · rw [hst] at hA
            exact absurd hA (by simp)
          · exact ⟨hi1, Or.inr (Or.inl hB)⟩
          · exact ⟨hi1, Or.inr (Or.inr hC)⟩
        | false =>
          rw [if_neg (by simp [hst])] at hok
          rcases hend with ⟨hA, hn1⟩ | hB | hC
          · exact (ih (epoch + 1) st1 hi1 hn1 hA).1 st' hok
          · obtain ⟨hB1, -⟩ := hB
            rw [hst] at hB1
            exact absurd hB1 (by simp)
          · obtain ⟨hC1, -⟩ := hC
            rw [hst] at hC1
            exact absurd hC1 (by simp)
    · intro e herr
      unfold runEpochs at herr
      cases hrb : runBatches args m dev epoch trainN st with
      | error e' =>
        rw [hrb] at herr
        injection herr with h
        subst h
        exact (runBatches_spec args m dev epoch trainN st hInv hnf hstop).2 _ hrb
      | ok st1 =>
        rw [hrb] at herr
        dsimp only [] at herr
        obtain ⟨hi1, hend⟩ := (runBatches_spec args m dev epoch trainN st
          hInv hnf hstop).1 st1 hrb
        cases hst : st1.stop_training with
        | true =>
          rw [if_pos hst] at herr
          exact absurd herr (by simp)
        | false =>
          rw [if_neg (by simp [hst])] at herr
          rcases hend with ⟨hA, hn1⟩ | hB | hC
          · exact (ih (epoch + 1) st1 hi1 hn1 hA).2 e herr
          · obtain ⟨hB1, -⟩ := hB
            rw [hst] at hB1
            exact absurd hB1 (by simp)
          · obtain ⟨hC1, -⟩ := hC
            rw [hst] at hC1
            exact absurd hC1 (by simp)

/-- The initial bookkeeping satisfies the invariant. -/
theorem Inv_initState (args : Args) (m : Model) (dev : DevData) :
    Inv args m dev initState := by
  refine { stepsLe := ?_, buf := rfl, bw := rfl, logs := ?_, saves := rfl,
           saveDict := ?_, evals := ?_, fwd := ?_, fwdEval := ?_, gas := ?_,
           waitSome := ?_, firstEval := ?_, stopWait := ?_ }
  · intro e he
    exact absurd he (by simp [initState])
  · intro p s b mn sc ep q h
    exact absurd h (by simp [initState])
  · intro s v pa d pb sc hmem
    exact absurd hmem (by simp [initState])
  · intro s v inf hmem
    exact absurd hmem (by simp [initState])
  · intro s l hmem
    exact absurd hmem (by simp [initState])
  · intro s l hmem
    exact absurd hmem (by simp [initState])
  · intro s l hmem
    exact absurd hmem (by simp [initState])
  · intro h
    exact absurd rfl h
  · intro sc rest h
    exact absurd h (by simp [initState, scoresOf, evalsOf])
  · intro _
    exact Or.inl rfl

/-- The end-to-end guarantee for `train`. -/
theorem train_spec (args : Args) (m : Model) (trainN : Nat) (dev : DevData) :
    (∀ st', train args m trainN dev = Except.ok st' →
      Inv args m dev st' ∧ ((st'.stop_training = false ∧ nanFree st'.trace)
        ∨ NanEnd m st' ∨ PatienceEnd args st'))
    ∧ (∀ e, train args m trainN dev = Except.error e → ErrSpec e) := by
  have hnf0 : nanFree (initState.trace) := by
    intro s l hmem
    exact absurd hmem (by simp [initState])
  exact runEpochs_spec args m dev trainN args.num_train_epochs 0 initState
    (Inv_initState args m dev) hnf0 rfl

end ODQA

namespace ODQA

/-- C1: during training, a checkpoint is written to
`<output_dir>/best-model.pt` exactly at those periodic evaluations whose
score strictly exceeds the best score so far (initialised to -1, with the
Python float `<` that a NaN score never satisfies); the saved object is the
state dict of the evaluated parameters with every tensor moved to the host;
`best_accuracy` is exactly the running maximum of the recorded scores, and
it is monotonically non-decreasing over the run. -/
theorem C1_best_checkpoint (args : Args) (m : Model) (trainN : Nat)
    (dev : DevData) (st : TrainState)
    (h : train args m trainN dev = Except.ok st) :
    savesOf st.trace = savesSpecA (EVal.num (-1)) (evalsOf st.trace)
    ∧ (∀ s v pa d pb sc, Event.saveModel s v pa d pb sc ∈ st.trace →
        pa = osPathJoin args.output_dir "best-model.pt"
        ∧ d = (m.stateDictAt v).map (fun kv => (kv.1, kv.2.cpu))
        ∧ (∀ kv ∈ d, kv.2.onCpu = true)
        ∧ pb.elt sc = true)
    ∧ st.best_accuracy = foldBest (EVal.num (-1)) (scoresOf st.trace)
    ∧ List.Chain' EVal.le (List.scanl updBest (EVal.num (-1)) (scoresOf st.trace)) := by
  obtain ⟨hInv, -⟩ := (train_spec args m trainN dev).1 st h
  refine ⟨hInv.saves, ?_, ?_, ?_⟩
  · intro s v pa d pb sc hmem
    obtain ⟨hpa, hd, himp⟩ := hInv.saveDict s v pa d pb sc hmem
    refine ⟨hpa, hd, ?_, himp⟩
    intro kv hkv
    rw [hd] at hkv
    obtain ⟨kv0, hkv0, rfl⟩ := List.mem_map.1 hkv
    rfl
  · have h2 := congrArg Prod.fst hInv.bw
    rw [bwFold_fst] at h2
    exact h2
  · exact chain_scanl_updBest _ _ ⟨-1, rfl⟩

theorem C1_best_checkpoint_witness :
    savesOf (resState (train w1Args w1Model 2 w1Dev)).trace
      = savesSpecA (EVal.num (-1))
          (evalsOf (resState (train w1Args w1Model 2 w1Dev)).trace)
    ∧ (∀ s v pa d pb sc, Event.saveModel s v pa d pb sc
          ∈ (resState (train w1Args w1Model 2 w1Dev)).trace →
        pa = osPathJoin w1Args.output_dir "best-model.pt"
        ∧ d = (w1Model.stateDictAt v).map (fun kv => (kv.1, kv.2.cpu))
        ∧ (∀ kv ∈ d, kv.2.onCpu = true)
        ∧ pb.elt sc = true)
    ∧ (resState (train w1Args w1Model 2 w1Dev)).best_accuracy
      = foldBest (EVal.num (-1))
          (scoresOf (resState (train w1Args w1Model 2 w1Dev)).trace)
    ∧ List.Chain' EVal.le (List.scanl updBest (EVal.num (-1))
        (scoresOf (resState (train w1Args w1Model 2 w1Dev)).trace)) :=
  C1_best_checkpoint w1Args w1Model 2 w1Dev (resState (train w1Args w1Model 2 w1Dev))
    (by with_unfolding_all rfl)

end ODQA

namespace ODQA

/-- C2 as written is false: the code stops when the incremented wait counter
reaches `args.wait_step` (`wait_step >= args.wait_step`, src/train.py line
98), not when it strictly exceeds it.  Concretely, with `wait_step = 1` and
scores 1 then 0, training terminates early by the patience path with the
counter equal to 1 — it never exceeds the threshold. -/
theorem C2_counterexample :
    Except.map (fun st => (st.stop_training, st.wait_step,
        (st.trace.filter isNanStopE).length, (st.trace.filter isForwardE).length))
      (train w2Args w2Model 2 w2Dev)
      = Except.ok (true, some 1, 0, 2)
    ∧ w2Args.wait_step = 1
    ∧ w2Args.num_train_epochs = 3
    ∧ (2 : Nat) < 3 * 2
    ∧ ¬ (1 : Nat) > 1 := by
  refine ⟨by with_unfolding_all rfl, rfl, rfl, by decide, by decide⟩

/-- C2 amended: on every evaluation a strict improvement resets the wait
counter to 0 and a non-improvement increments it (this is the
`bwFold` replay of the recorded scores); training terminates early by the
patience path — stop flag set with no NaN halt on record — exactly when the
counter has reached at least `args.wait_step` (`>=`, not strictly greater,
which the counterexample shows can happen at equality). -/
theorem C2_early_stopping (args : Args) (m : Model) (trainN : Nat)
    (dev : DevData) (st : TrainState)
    (h : train args m trainN dev = Except.ok st) :
    (st.best_accuracy, st.wait_step) = bwFold (scoresOf st.trace)
    ∧ (st.stop_training = true → (∀ s l, Event.nanStop s l ∉ st.trace) →
        ∃ w, st.wait_step = some w ∧ args.wait_step ≤ w)
    ∧ (st.stop_training = false → ∀ w, st.wait_step = some w →
        args.wait_step ≤ w → w = 0) := by
  obtain ⟨hInv, hend⟩ := (train_spec args m trainN dev).1 st h
  refine ⟨hInv.bw, ?_, ?_⟩
  · intro hstop hnf
    rcases hend with ⟨hA, -⟩ | hB | hC
    · rw [hstop] at hA
      exact absurd hA (by simp)
    · obtain ⟨-, pre, s, l, htr, -, -, -, -⟩ := hB
      exact absurd (htr ▸ (List.mem_append_right pre (by simp)))
        (hnf s l)
    · obtain ⟨-, -, w, hw, hle⟩ := hC
      exact ⟨w, hw, hle⟩
  · intro hstop w hw hle
    rcases hInv.stopWait hstop with h0 | h0 | ⟨w', hw', hlt⟩
    · rw [h0] at hw
      exact absurd hw (by simp)
    · rw [h0] at hw
      injection hw with h2
      exact h2.symm
    · rw [hw'] at hw
      injection hw with h2
      subst h2
      omega

theorem C2_early_stopping_witness :
    ((resState (train w2Args w2Model 2 w2Dev)).best_accuracy,
      (resState (train w2Args w2Model 2 w2Dev)).wait_step)
      = bwFold (scoresOf (resState (train w2Args w2Model 2 w2Dev)).trace)
    ∧ ((resState (train w2Args w2Model 2 w2Dev)).stop_training = true →
        (∀ s l, Event.nanStop s l ∉ (resState (train w2Args w2Model 2 w2Dev)).trace) →
        ∃ w, (resState (train w2Args w2Model 2 w2Dev)).wait_step = some w
          ∧ w2Args.wait_step ≤ w)
    ∧ ((resState (train w2Args w2Model 2 w2Dev)).stop_training = false →
        ∀ w, (resState (train w2Args w2Model 2 w2Dev)).wait_step = some w →
        w2Args.wait_step ≤ w → w = 0) :=
  C2_early_stopping w2Args w2Model 2 w2Dev (resState (train w2Args w2Model 2 w2Dev))
    (by with_unfolding_all rfl)

end ODQA

namespace ODQA

/-- C3: a NaN forward loss makes `train` log the event, set the stop flag
and leave both loops with no exception; for that batch there is no backward
pass, no optimizer or scheduler step, no evaluation, and the loss is not
appended: the log event is the last thing in the trace.  Conversely a run
that does raise (the unbound-local read) never saw a NaN loss. -/
theorem C3_nan_loss (args : Args) (m : Model) (trainN : Nat) (dev : DevData) :
    (∀ st s l, train args m trainN dev = Except.ok st →
      Event.nanStop s l ∈ st.trace →
        st.stop_training = true ∧ l = m.lossOf s ∧ l.isnan = true
        ∧ (∃ pre, st.trace = pre ++ [Event.forwardE s l, Event.nanStop s l]
            ∧ ∀ e ∈ pre, eventStep e < s)
        ∧ (∀ l', Event.appendLoss s l' ∉ st.trace)
        ∧ Event.backward s ∉ st.trace
        ∧ (∀ c, Event.clipGrad s c ∉ st.trace)
        ∧ Event.optStep s ∉ st.trace ∧ Event.schedStep s ∉ st.trace
        ∧ Event.zeroGrad s ∉ st.trace
        ∧ (∀ v inf, Event.evalE s v inf ∉ st.trace))
    ∧ (∀ nm est, train args m trainN dev = Except.error (Err.unboundLocal nm est) →
        ∀ s l, Event.nanStop s l ∉ est.trace) := by
  constructor
  · intro st s l hok hmem
    obtain ⟨hInv, hend⟩ := (train_spec args m trainN dev).1 st hok
    rcases hend with ⟨-, hnf⟩ | hB | ⟨-, hnf, -⟩
    · exact absurd hmem (hnf s l)
    · obtain ⟨hstop, pre, s', l', htr, hl', hnan', hnfpre, hsteps⟩ := hB
      have hid : s = s' ∧ l = l' := by
        rw [htr] at hmem
        rcases List.mem_append.1 hmem with h' | h'
        · exact absurd h' (hnfpre s l)
        · simp only [List.mem_cons, List.not_mem_nil, or_false] at h'
          rcases h' with h' | h'
          · exact absurd h' (by simp)
          · injection h' with h1 h2
            exact ⟨h1, h2⟩
      obtain ⟨rfl, rfl⟩ := hid
      have hnotin : ∀ x : Event, eventStep x = s →
          x ≠ Event.forwardE s l → x ≠ Event.nanStop s l → x ∉ st.trace := by
        intro x hx hne1 hne2 hmemx
        rw [htr] at hmemx
        rcases List.mem_append.1 hmemx with h' | h'
        · have := hsteps x h'
          rw [hx] at this
          exact lt_irrefl _ this
        · simp only [List.mem_cons, List.not_mem_nil, or_false] at h'
          rcases h' with h' | h'
          · exact hne1 h'
          · exact hne2 h'
      refine ⟨hstop, hl', hnan', ⟨pre, htr, hsteps⟩, ?_, ?_, ?_, ?_, ?_, ?_, ?_⟩
      · intro l'
        exact hnotin _ rfl (by simp) (by simp)
      · exact hnotin _ rfl (by simp) (by simp)
      · intro c
        exact hnotin _ rfl (by simp) (by simp)
      · exact hnotin _ rfl (by simp) (by simp)
      · exact hnotin _ rfl (by simp) (by simp)
      · exact hnotin _ rfl (by simp) (by simp)
      · intro v inf
        exact hnotin _ rfl (by simp) (by simp)
    · exact absurd hmem (hnf s l)
  · intro nm est herr s l hmem
    obtain ⟨st', heq, -, hnf, -⟩ := (train_spec args m trainN dev).2 _ herr
    injection heq with h1 h2
    subst h2
    exact absurd hmem (hnf s l)

theorem C3_nan_loss_witness :
    (resState (train w3Args w3Model 3 w2Dev)).stop_training = true
    ∧ EVal.nan = w3Model.lossOf 2 ∧ EVal.nan.isnan = true
    ∧ (∃ pre, (resState (train w3Args w3Model 3 w2Dev)).trace
        = pre ++ [Event.forwardE 2 EVal.nan, Event.nanStop 2 EVal.nan]
        ∧ ∀ e ∈ pre, eventStep e < 2)
    ∧ (∀ l', Event.appendLoss 2 l' ∉ (resState (train w3Args w3Model 3 w2Dev)).trace)
    ∧ Event.backward 2 ∉ (resState (train w3Args w3Model 3 w2Dev)).trace
    ∧ (∀ c, Event.clipGrad 2 c ∉ (resState (train w3Args w3Model 3 w2Dev)).trace)
    ∧ Event.optStep 2 ∉ (resState (train w3Args w3Model 3 w2Dev)).trace
    ∧ Event.schedStep 2 ∉ (resState (train w3Args w3Model 3 w2Dev)).trace
    ∧ Event.zeroGrad 2 ∉ (resState (train w3Args w3Model 3 w2Dev)).trace
    ∧ (∀ v inf, Event.evalE 2 v inf ∉ (resState (train w3Args w3Model 3 w2Dev)).trace) :=
  (C3_nan_loss w3Args w3Model 3 w2Dev).1 (resState (train w3Args w3Model 3 w2Dev))
    2 EVal.nan (by with_unfolding_all rfl) (by with_unfolding_all decide)

end ODQA

namespace ODQA

/-- C4: for every executed non-NaN batch, `loss.backward` runs; the
clip/optimizer/scheduler/zero block runs contiguously exactly when the
global step is a multiple of `gradient_accumulation_steps` (clipping to
`max_grad_norm` immediately before the optimizer step), and at no other
step does any of the four run, so intervening gradients accumulate.  The
hypothesis `0 < gradient_accumulation_steps` marks where Python would raise
`ZeroDivisionError` instead. -/
theorem C4_grad_accumulation (args : Args) (m : Model) (trainN : Nat)
    (dev : DevData) (st : TrainState)
    (hgas : 0 < args.gradient_accumulation_steps)
    (h : train args m trainN dev = Except.ok st) (s : Nat) (l : EVal)
    (hf : Event.forwardE s l ∈ st.trace) (hl : l.isnan = false) :
    Event.backward s ∈ st.trace
    ∧ (s % args.gradient_accumulation_steps = 0 →
        ∃ p q, st.trace = p ++ Event.clipGrad s args.max_grad_norm ::
          Event.optStep s :: Event.schedStep s :: Event.zeroGrad s :: q)
    ∧ (¬ s % args.gradient_accumulation_steps = 0 →
        (∀ c, Event.clipGrad s c ∉ st.trace) ∧ Event.optStep s ∉ st.trace
        ∧ Event.schedStep s ∉ st.trace ∧ Event.zeroGrad s ∉ st.trace) := by
  obtain ⟨hInv, -⟩ := (train_spec args m trainN dev).1 st h
  obtain ⟨hblock, habs⟩ := hInv.gas s l hf hl
  exact ⟨(hInv.fwd s l hf).2 hl, hblock, habs⟩

theorem C4_grad_accumulation_witness :
    Event.backward 2 ∈ (resState (train w1Args w1Model 2 w1Dev)).trace
    ∧ ((2 : Nat) % w1Args.gradient_accumulation_steps = 0 →
        ∃ p q, (resState (train w1Args w1Model 2 w1Dev)).trace
          = p ++ Event.clipGrad 2 w1Args.max_grad_norm ::
            Event.optStep 2 :: Event.schedStep 2 :: Event.zeroGrad 2 :: q)
    ∧ (¬ (2 : Nat) % w1Args.gradient_accumulation_steps = 0 →
        (∀ c, Event.clipGrad 2 c ∉ (resState (train w1Args w1Model 2 w1Dev)).trace)
        ∧ Event.optStep 2 ∉ (resState (train w1Args w1Model 2 w1Dev)).trace
        ∧ Event.schedStep 2 ∉ (resState (train w1Args w1Model 2 w1Dev)).trace
        ∧ Event.zeroGrad 2 ∉ (resState (train w1Args w1Model 2 w1Dev)).trace) :=
  C4_grad_accumulation w1Args w1Model 2 w1Dev (resState (train w1Args w1Model 2 w1Dev))
    (by decide) (by with_unfolding_all rfl) 2 (EVal.num 2)
    (by with_unfolding_all decide) (by decide)

/-- C6: evaluation happens exactly at the non-NaN steps whose global step
is a multiple of `eval_period`; each recorded evaluation is a genuine
`inference` call, and `inference` calls `model.generate` for every dev
batch with `num_beams = dev.num_beams`, `max_length = dev.max_output_length`
and `early_stopping = true`, returning the `np.mean` of `dev.evaluate` over
the collected predictions.  The hypothesis `0 < eval_period` marks where
Python would raise `ZeroDivisionError` instead. -/
theorem C6_periodic_beam_eval (args : Args) (m : Model) (trainN : Nat)
    (dev : DevData) (st : TrainState)
    (hep : 0 < args.eval_period)
    (h : train args m trainN dev = Except.ok st) :
    (∀ s v inf, Event.evalE s v inf ∈ st.trace →
        s % args.eval_period = 0 ∧ inf = inference m v dev true)
    ∧ (∀ s l, Event.forwardE s l ∈ st.trace → l.isnan = false →
        s % args.eval_period = 0 → ∃ v inf, Event.evalE s v inf ∈ st.trace)
    ∧ (∀ v, (inference m v dev true).genCalls
          = dev.batches.map (fun b =>
              (b, { num_beams := dev.num_beams, max_length := dev.max_output_length,
                    early_stopping := true }))
        ∧ (inference m v dev true).score
          = npMean (dev.evaluate ((inference m v dev true).predictions))) := by
  obtain ⟨hInv, -⟩ := (train_spec args m trainN dev).1 st h
  exact ⟨hInv.evals, hInv.fwdEval, fun v => ⟨rfl, rfl⟩⟩

theorem C6_periodic_beam_eval_witness :
    (∀ s v inf, Event.evalE s v inf ∈ (resState (train w1Args w1Model 2 w1Dev)).trace →
        s % w1Args.eval_period = 0 ∧ inf = inference w1Model v w1Dev true)
    ∧ (∀ s l, Event.forwardE s l ∈ (resState (train w1Args w1Model 2 w1Dev)).trace →
        l.isnan = false → s % w1Args.eval_period = 0 →
        ∃ v inf, Event.evalE s v inf ∈ (resState (train w1Args w1Model 2 w1Dev)).trace)
    ∧ (∀ v, (inference w1Model v w1Dev true).genCalls
          = w1Dev.batches.map (fun b =>
              (b, { num_beams := w1Dev.num_beams, max_length := w1Dev.max_output_length,
                    early_stopping := true }))
        ∧ (inference w1Model v w1Dev true).score
          = npMean (w1Dev.evaluate ((inference w1Model v w1Dev true).predictions))) :=
  C6_periodic_beam_eval w1Args w1Model 2 w1Dev (resState (train w1Args w1Model 2 w1Dev))
    (by decide) (by with_unfolding_all rfl)

end ODQA

namespace ODQA

/-- C7: every `logTrain` line averaged exactly the per-batch losses recorded
since the previous evaluation (the replay of its trace prefix), the logged
value is `np.mean` of that buffer, and the buffer is empty again immediately
after the log event. -/
theorem C7_loss_buffer_reset (args : Args) (m : Model) (trainN : Nat)
    (dev : DevData) (st : TrainState)
    (h : train args m trainN dev = Except.ok st)
    (p q : List Event) (s : Nat) (b : List EVal) (mn sc : EVal) (ep : Nat)
    (hsplit : st.trace = p ++ Event.logTrain s b mn sc ep :: q) :
    b = lossBuf p ∧ mn = npMeanE b
    ∧ lossBuf (p ++ [Event.logTrain s b mn sc ep]) = [] := by
  obtain ⟨hInv, -⟩ := (train_spec args m trainN dev).1 st h
  obtain ⟨h1, h2⟩ := hInv.logs p s b mn sc ep q hsplit
  refine ⟨h1, h2, ?_⟩
  rw [lossBuf_append]
  rfl

theorem C7_loss_buffer_reset_witness :
    ([EVal.num 1] : List EVal) = lossBuf w7Front
    ∧ EVal.num 1 = npMeanE [EVal.num 1]
    ∧ lossBuf (w7Front ++ [Event.logTrain 1 [EVal.num 1] (EVal.num 1)
        (EVal.num 5) 0]) = [] :=
  C7_loss_buffer_reset w7Args w7Model 1 w7Dev (resState (train w7Args w7Model 1 w7Dev))
    (by with_unfolding_all rfl) w7Front
    [Event.saveModel 1 0 (osPathJoin "out" "best-model.pt") [] (EVal.num (-1)) (EVal.num 5)]
    1 [EVal.num 1] (EVal.num 1) (EVal.num 5) 0
    (by with_unfolding_all decide)

/-- C8: the wait counter is only ever assigned in the improvement branch,
so if the first evaluation does not strictly improve on the initial best of
-1 (possible, e.g. when the evaluation mean is NaN on an empty dev set),
`train` raises the unbound-local exception on `wait_step += 1` instead of
halting non-fatally; the raising state records exactly that one
non-improving score and an unbound counter.  Conversely, in every run that
returns, the first recorded evaluation strictly improved on -1. -/
theorem C8_unbound_wait (args : Args) (m : Model) (trainN : Nat) (dev : DevData) :
    (∀ nm est, train args m trainN dev = Except.error (Err.unboundLocal nm est) →
        nm = "wait_step" ∧ est.wait_step = none
        ∧ ∃ sc, scoresOf est.trace = [sc] ∧ (EVal.num (-1)).elt sc = false)
    ∧ (∀ st sc rest, train args m trainN dev = Except.ok st →
        scoresOf st.trace = sc :: rest → (EVal.num (-1)).elt sc = true) := by
  constructor
  · intro nm est herr
    obtain ⟨st', heq, hw, hnf, sc, hsc, helt⟩ := (train_spec args m trainN dev).2 _ herr
    injection heq with h1 h2
    subst h2
    exact ⟨h1, hw, sc, hsc, helt⟩
  · intro st sc rest hok hsc
    obtain ⟨hInv, -⟩ := (train_spec args m trainN dev).1 st hok
    exact hInv.firstEval sc rest hsc

theorem C8_unbound_wait_witness :
    ("wait_step" : String) = "wait_step"
    ∧ (resState (train w8Args w2Model 1 w8Dev)).wait_step = none
    ∧ ∃ sc, scoresOf (resState (train w8Args w2Model 1 w8Dev)).trace = [sc]
        ∧ (EVal.num (-1)).elt sc = false :=
  (C8_unbound_wait w8Args w2Model 1 w8Dev).1 "wait_step"
    (resState (train w8Args w2Model 1 w8Dev)) (by with_unfolding_all rfl)

/-- C10: the training loop calls `inference` without overriding its
`save_predictions` parameter, whose default is `True`, so every periodic
evaluation writes the dev predictions: each recorded evaluation is
`inference m v dev true` and its `savedPreds` field holds the predictions. -/
theorem C10_predictions_saved (args : Args) (m : Model) (trainN : Nat)
    (dev : DevData) (st : TrainState)
    (h : train args m trainN dev = Except.ok st)
    (s v : Nat) (inf : InfResult) (hm : Event.evalE s v inf ∈ st.trace) :
    inf = inference m v dev true ∧ inf.savedPreds = some inf.predictions := by
  obtain ⟨hInv, -⟩ := (train_spec args m trainN dev).1 st h
  obtain ⟨-, hinf⟩ := hInv.evals s v inf hm
  subst hinf
  exact ⟨rfl, rfl⟩

theorem C10_predictions_saved_witness :
    w1Inf = inference w1Model 1 w1Dev true
    ∧ w1Inf.savedPreds = some w1Inf.predictions :=
  C10_predictions_saved w1Args w1Model 2 w1Dev (resState (train w1Args w1Model 2 w1Dev))
    (by with_unfolding_all rfl) 2 1 w1Inf (by with_unfolding_all decide)

end ODQA

namespace ODQA

/-- C5: in `do_predict` mode the checkpoint path
`<output_dir>/best-model.pt` is computed and logged but nothing is loaded
from it (the loader is an unimplemented TODO): `inference` runs on the
in-memory parameters — version 0 when training did not run in this process,
and the final training version when it did. -/
theorem C5_predict_no_load (args : Args) (m : Model) (trainN : Nat)
    (dev : DevData) (r : RunResult)
    (hp : args.do_predict = true)
    (h : run args m trainN dev = Except.ok r) :
    r.predictLog = some ("Loading checkpoint from "
      ++ osPathJoin args.output_dir "best-model.pt")
    ∧ ∃ v, r.predictVersion = some v
      ∧ r.predictInf = some (inference m v dev true)
      ∧ (args.do_train = false → v = 0)
      ∧ (∀ st, r.trainSt = some st → v = st.version) := by
  unfold run at h
  by_cases hdt : args.do_train = true
  · rw [if_pos hdt, if_pos hdt] at h
    cases htr : train args m trainN dev with
    | error e =>
      rw [htr] at h
      exact absurd h (by simp [Except.map])
    | ok st =>
      rw [htr] at h
      dsimp only [Except.map] at h
      rw [if_pos hp] at h
      injection h with h2
      subst h2
      refine ⟨rfl, st.version, rfl, rfl, ?_, ?_⟩
      · intro hdf
        rw [hdt] at hdf
        exact absurd hdf (by simp)
      · intro st' hst'
        injection hst' with h3
        rw [h3]
  · rw [if_neg hdt, if_neg hdt] at h
    dsimp only [] at h
    rw [if_pos hp] at h
    injection h with h2
    subst h2
    exact ⟨rfl, 0, rfl, rfl, fun _ => rfl, fun st' hst' => absurd hst' (by simp)⟩

theorem C5_predict_no_load_witness :
    (runRes (run w1Args w1Model 2 w1Dev)).predictLog
      = some ("Loading checkpoint from " ++ osPathJoin w1Args.output_dir "best-model.pt")
    ∧ ∃ v, (runRes (run w1Args w1Model 2 w1Dev)).predictVersion = some v
      ∧ (runRes (run w1Args w1Model 2 w1Dev)).predictInf
        = some (inference w1Model v w1Dev true)
      ∧ (w1Args.do_train = false → v = 0)
      ∧ (∀ st, (runRes (run w1Args w1Model 2 w1Dev)).trainSt = some st →
          v = st.version) :=
  C5_predict_no_load w1Args w1Model 2 w1Dev (runRes (run w1Args w1Model 2 w1Dev))
    rfl (by with_unfolding_all rfl)

/-- C9: the two AdamW parameter groups partition the named parameters —
together they are a permutation of all parameter tensors, and a parameter
goes to the `weight_decay = 0` group exactly when its name contains `bias`
or `LayerNorm.weight`, to the `weight_decay = args.weight_decay` group
otherwise. -/
theorem C9_param_groups (named : List (String × Tensor)) (wd : ℚ)
    (x : String × Tensor) (hx : x ∈ named) :
    ∃ g1 g2, optimizer_grouped_parameters named wd = [g1, g2]
      ∧ g1.weight_decay = wd ∧ g2.weight_decay = 0
      ∧ (g1.params ++ g2.params).Perm (named.map Prod.snd)
      ∧ (noDecayName x.1 = true → x.2 ∈ g2.params)
      ∧ (noDecayName x.1 = false → x.2 ∈ g1.params) := by
  refine ⟨_, _, rfl, rfl, rfl, ?_, ?_, ?_⟩
  · have h1 : ((named.filter (fun np => noDecayName np.1)).map Prod.snd
        ++ (named.filter (fun np => !noDecayName np.1)).map Prod.snd).Perm
        (named.map Prod.snd) := by
      rw [← List.map_append]
      exact (List.filter_append_perm _ named).map Prod.snd
    exact List.Perm.trans List.perm_append_comm h1
  · intro hnd
    exact List.mem_map.2 ⟨x, List.mem_filter.2 ⟨hx, hnd⟩, rfl⟩
  · intro hnd
    refine List.mem_map.2 ⟨x, List.mem_filter.2 ⟨hx, ?_⟩, rfl⟩
    rw [hnd]
    rfl

theorem C9_param_groups_witness :
    ∃ g1 g2, optimizer_grouped_parameters w1Model.named_parameters (1/100) = [g1, g2]
      ∧ g1.weight_decay = 1/100 ∧ g2.weight_decay = 0
      ∧ (g1.params ++ g2.params).Perm (w1Model.named_parameters.map Prod.snd)
      ∧ (noDecayName ("encoder.bias", ({ data := 2, onCpu := false } : Tensor)).1 = true →
          ("encoder.bias", ({ data := 2, onCpu := false } : Tensor)).2 ∈ g2.params)
      ∧ (noDecayName ("encoder.bias", ({ data := 2, onCpu := false } : Tensor)).1 = false →
          ("encoder.bias", ({ data := 2, onCpu := false } : Tensor)).2 ∈ g1.params) :=
  C9_param_groups w1Model.named_parameters (1/100)
    ("encoder.bias", { data := 2, onCpu := false }) (by decide)

end ODQA
